import Mathlib

/-!
# Verification of the go-cache-plugin two-tier cache engine

A shallow embedding of the cache engine of `go-cache-plugin`:

* the Go standard-library `path.Clean` / `path.Join` used to assemble remote
  object keys (`lib/gobuild` `makeKey`, `lib/modproxy` `makeKey`);
* the GCS client wrapper `gcsutil.Client` (`Get`, `GetData`, `Put`, `PutCond`)
  over a pure key/value store with per-object ETags;
* the build-cache adapter `gobuild.GCSCache` (`Get`, `Put` and the background
  upload task enqueued by `Put`);
* the module-proxy adapter `modproxy.StorageCacher` (`Get`, `Put`, `putLocal`).

Environmental nondeterminism (local file-system I/O results, transport faults)
is passed in explicitly as oracle records, so every function is executable and
every run is a concrete value.
-/

namespace GoCachePlugin

/-! ## Go `path` package: `Clean` and `Join`

`path.Clean` is specified over the list of characters of the path: split on
the separator, drop empty and `.` segments, resolve `..` against a stack, and
re-join.  `path.Join` drops leading empty elements, joins the rest with `/`,
and cleans the result (returning `""` when every element is empty). -/

/-- Split a character list on `'/'`.  Always returns at least one segment;
adjacent separators yield empty segments, mirroring Go's `strings.Split`. -/
def splitSlash : List Char → List (List Char)
  | [] => [[]]
  | c :: rest =>
    if c = '/' then [] :: splitSlash rest
    else (c :: (splitSlash rest).headI) :: (splitSlash rest).tail

/-- Re-join segments with `'/'`: the left inverse of `splitSlash`. -/
def joinSlash : List (List Char) → List Char
  | [] => []
  | [s] => s
  | s :: ss => s ++ '/' :: joinSlash ss

@[simp] theorem joinSlash_nil : joinSlash [] = [] := rfl

@[simp] theorem joinSlash_single (s : List Char) : joinSlash [s] = s := rfl

theorem joinSlash_cons (s : List Char) (t : List Char) (ss : List (List Char)) :
    joinSlash (s :: t :: ss) = s ++ '/' :: joinSlash (t :: ss) := rfl

/-- One step of Go `path.Clean`'s segment processing: skip empty and `.`
segments, resolve `..` against the stack of kept segments. -/
def cleanStep (rooted : Bool) (stack : List (List Char)) (seg : List Char) :
    List (List Char) :=
  if seg = [] ∨ seg = ['.'] then stack
  else if seg = ['.', '.'] then
    match stack with
    | s :: rest => if s = ['.', '.'] then seg :: stack else rest
    | [] => if rooted then [] else [seg]
  else seg :: stack

/-- Go `path.Clean` on a character list. -/
def goPathCleanL (p : List Char) : List Char :=
  if p = [] then ['.']
  else
    let rooted := p.head? = some '/'
    let stack := (splitSlash p).foldl (cleanStep rooted) []
    let out := joinSlash stack.reverse
    if rooted then '/' :: out
    else if out = [] then ['.'] else out

/-- Go `path.Clean`. -/
def goPathClean (p : String) : String := ⟨goPathCleanL p.data⟩

/-- Go `path.Join` on character lists: leading empty elements are dropped, the
rest are joined with `'/'` and cleaned; all-empty input yields the empty
path. -/
def goPathJoinL (elems : List (List Char)) : List Char :=
  match elems.dropWhile (· = []) with
  | [] => []
  | ne => goPathCleanL (joinSlash ne)

/-- Go `path.Join`. -/
def goPathJoin (elems : List String) : String := ⟨goPathJoinL (elems.map (·.data))⟩

/-! ### Clean/Join laws for well-formed segments -/

/-- A path segment that `Clean` keeps verbatim: nonempty and not a dot
segment. -/
def GoodSeg (s : List Char) : Prop := s ≠ [] ∧ s ≠ ['.'] ∧ s ≠ ['.', '.']

instance (s : List Char) : Decidable (GoodSeg s) := by
  unfold GoodSeg
  infer_instance

theorem splitSlash_ne_nil (l : List Char) : splitSlash l ≠ [] := by
  cases l with
  | nil => simp [splitSlash]
  | cons c rest =>
    simp only [splitSlash]
    split <;> simp

theorem splitSlash_cons_exists (l : List Char) :
    ∃ s ss, splitSlash l = s :: ss := by
  cases h : splitSlash l with
  | nil => exact absurd h (splitSlash_ne_nil l)
  | cons s ss => exact ⟨s, ss, rfl⟩

theorem splitSlash_append (xs ys : List Char) :
    splitSlash (xs ++ '/' :: ys) = splitSlash xs ++ splitSlash ys := by
  induction xs with
  | nil => simp [splitSlash]
  | cons c rest ih =>
    by_cases hc : c = '/'
    · subst hc
      simp [splitSlash, ih]
    · obtain ⟨s, ss, hss⟩ := splitSlash_cons_exists rest
      simp [splitSlash, if_neg hc, ih, hss]

theorem joinSlash_splitSlash (l : List Char) : joinSlash (splitSlash l) = l := by
  induction l with
  | nil => simp [splitSlash]
  | cons c rest ih =>
    obtain ⟨s, ss, hss⟩ := splitSlash_cons_exists rest
    rw [hss] at ih
    by_cases hc : c = '/'
    · subst hc
      have hsp : splitSlash ('/' :: rest) = [] :: s :: ss := by simp [splitSlash, hss]
      rw [hsp, joinSlash_cons, ih]
      simp
    · simp only [splitSlash, if_neg hc, hss, List.headI, List.tail_cons]
      cases ss with
      | nil => simp only [joinSlash_single] at ih ⊢; simp [ih]
      | cons s' ss' =>
        rw [joinSlash_cons] at ih ⊢
        simp [← ih]

theorem foldl_cleanStep_good (r : Bool) (segs : List (List Char))
    (h : ∀ s ∈ segs, GoodSeg s) (acc : List (List Char)) :
    segs.foldl (cleanStep r) acc = segs.reverse ++ acc := by
  induction segs generalizing acc with
  | nil => simp
  | cons s rest ih =>
    obtain ⟨h1, h2, h3⟩ := h s (by simp)
    have hstep : cleanStep r acc s = s :: acc := by
      unfold cleanStep
      rw [if_neg (by simp [h1, h2]), if_neg h3]
    simp only [List.foldl_cons, hstep]
    rw [ih (fun t ht => h t (by simp [ht]))]
    simp

theorem goPathCleanL_good (l : List Char) (h : ∀ s ∈ splitSlash l, GoodSeg s) :
    goPathCleanL l = l := by
  have hne : l ≠ [] := by
    intro hl
    subst hl
    exact (h [] (by simp [splitSlash])).1 rfl
  have hroot : l.head? ≠ some '/' := by
    intro hl
    cases l with
    | nil => simp at hl
    | cons c rest =>
      simp at hl
      subst hl
      exact (h [] (by simp [splitSlash])).1 rfl
  unfold goPathCleanL
  rw [if_neg hne]
  simp only [foldl_cleanStep_good _ _ h, List.append_nil, List.reverse_reverse,
    joinSlash_splitSlash]
  simp [hroot, hne]

theorem splitSlash_no_slash (l : List Char) (h : l ≠ []) (hs : '/' ∉ l) :
    splitSlash l = [l] := by
  induction l with
  | nil => exact absurd rfl h
  | cons c rest ih =>
    have hc : c ≠ '/' := fun hc => hs (hc ▸ List.mem_cons_self c rest)
    simp only [splitSlash, if_neg hc]
    cases hr : rest with
    | nil => simp [hr, splitSlash]
    | cons c' rest' =>
      rw [← hr, ih (by simp [hr]) (fun hm => hs (List.mem_cons_of_mem c hm))]
      simp

/-! ## Lower-hex rendering (Go `fmt` `%x` on a byte array) -/

/-- The sixteen lower-case hexadecimal digits. -/
def hexChars : List Char := "0123456789abcdef".data

/-- The lower-hex digit for a nibble. -/
def hexDigitChar : Nat → Char
  | 0 => '0' | 1 => '1' | 2 => '2' | 3 => '3'
  | 4 => '4' | 5 => '5' | 6 => '6' | 7 => '7'
  | 8 => '8' | 9 => '9' | 10 => 'a' | 11 => 'b'
  | 12 => 'c' | 13 => 'd' | 14 => 'e' | _ => 'f'

/-- The two lower-hex digits of a byte. -/
def byteHexL (b : Nat) : List Char := [hexDigitChar (b / 16), hexDigitChar (b % 16)]

/-- Go `fmt.Sprintf` with verb `%x` applied to a byte slice: each byte becomes
two lower-hex digits.  `modproxy.hashName` is this applied to the SHA-256
digest of the name. -/
def hexBytes (bs : List Nat) : String := ⟨(bs.map byteHexL).flatten⟩

/-- A string consisting only of lower-hex characters. -/
def IsHexStr (s : String) : Prop := ∀ c ∈ s.data, c ∈ hexChars

instance (s : String) : Decidable (IsHexStr s) := by
  unfold IsHexStr
  exact List.decidableBAll _ _

theorem hexDigitChar_mem (n : Nat) : hexDigitChar n ∈ hexChars := by
  unfold hexDigitChar
  split <;> decide

theorem hexBytes_isHex (bs : List Nat) : IsHexStr (hexBytes bs) := by
  intro c hc
  simp only [hexBytes, List.mem_flatten, List.mem_map] at hc
  obtain ⟨l, ⟨b, _, rfl⟩, hcl⟩ := hc
  simp only [byteHexL, List.mem_cons, List.not_mem_nil, or_false] at hcl
  rcases hcl with rfl | rfl
  · exact hexDigitChar_mem _
  · exact hexDigitChar_mem _

theorem hexBytes_length (bs : List Nat) :
    (hexBytes bs).data.length = 2 * bs.length := by
  simp only [hexBytes]
  induction bs with
  | nil => simp
  | cons b rest ih =>
    simp only [List.map_cons, List.flatten_cons, List.length_append, ih]
    simp [byteHexL]
    omega

theorem hex_ne_slash {c : Char} (h : c ∈ hexChars) : c ≠ '/' := by
  fin_cases h <;> decide

theorem hex_ne_dot {c : Char} (h : c ∈ hexChars) : c ≠ '.' := by
  fin_cases h <;> decide

theorem hex_ne_newline {c : Char} (h : c ∈ hexChars) : c ≠ '\n' := by
  fin_cases h <;> decide

/-- A nonempty all-hex segment is kept verbatim by `Clean`. -/
theorem goodSeg_of_hex (l : List Char) (hne : l ≠ []) (h : ∀ c ∈ l, c ∈ hexChars) :
    GoodSeg l := by
  refine ⟨hne, ?_, ?_⟩
  · intro hl
    subst hl
    exact hex_ne_dot (h '.' (by simp)) rfl
  · intro hl
    subst hl
    exact hex_ne_dot (h '.' (by simp)) rfl

/-! ## The remote object store

A pure association-list model of the bucket: each key holds an object with a
body and the server-computed content ETag.  Transport faults and I/O failures
are injected through explicit oracle parameters at each call site. -/

/-- Association-list lookup (first binding wins). -/
def lookupA {α : Type} : List (String × α) → String → Option α
  | [], _ => none
  | (k, v) :: rest, key => if k = key then some v else lookupA rest key

/-- Association-list insert/overwrite (prepend; the new binding shadows). -/
def insertA {α : Type} (l : List (String × α)) (k : String) (v : α) :
    List (String × α) := (k, v) :: l

@[simp] theorem lookupA_insertA {α : Type} (l : List (String × α)) (k key : String)
    (v : α) : lookupA (insertA l k v) key = if k = key then some v else lookupA l key :=
  rfl

/-- A stored object: body bytes and the content ETag the server computed for
them. -/
structure GObj where
  data : List Nat
  etag : String
  deriving DecidableEq, Repr

/-- The remote bucket. -/
abbrev Store := List (String × GObj)

/-- The local module-cache file tree: path to file bytes. -/
abbrev FS := List (String × List Nat)

/-- Remote-client errors: the canonical not-found sentinel (`fs.ErrNotExist`)
or a transport error. -/
inductive RErr
  | notExist
  | transport
  deriving DecidableEq, Repr

/-- `gcsutil.Client.Get`: look up the object's attributes and open a reader;
returns body and size, the not-found sentinel, or a transport fault when the
oracle `fault` is set. -/
def clientGet (store : Store) (key : String) (fault : Bool) :
    Except RErr (List Nat × Int) :=
  if fault then .error .transport
  else
    match lookupA store key with
    | some o => .ok (o.data, (o.data.length : Int))
    | none => .error .notExist

/-- `gcsutil.Client.GetData`: `Get` followed by `io.ReadAll`. -/
def clientGetData (store : Store) (key : String) (fault : Bool) :
    Except RErr (List Nat) :=
  match clientGet store key fault with
  | .ok (data, _) => .ok data
  | .error e => .error e

/-- `gcsutil.Client.Put`: unconditionally write the object; the server stores
the content ETag `etagOf data`.  `writeOk` is the oracle for writer failure
(a failed writer commits nothing). -/
def clientPut (etagOf : List Nat → String) (store : Store) (key : String)
    (data : List Nat) (writeOk : Bool) : Store × Option RErr :=
  if writeOk then (insertA store key ⟨data, etagOf data⟩, none)
  else (store, some .transport)

/-- `gcsutil.Client.PutCond`: fetch the object's attributes; if the object
exists and its stored ETag equals `contentHash`, skip the upload and report
`false`; otherwise write the object and report `true`.  `writeOk` is the
oracle for writer failure. -/
def clientPutCond (etagOf : List Nat → String) (store : Store)
    (key contentHash : String) (data : List Nat) (writeOk : Bool) :
    Store × Except RErr Bool :=
  match lookupA store key with
  | some o =>
    if o.etag = contentHash then (store, .ok false)
    else if writeOk then (insertA store key ⟨data, etagOf data⟩, .ok true)
    else (store, .error .transport)
  | none =>
    if writeOk then (insertA store key ⟨data, etagOf data⟩, .ok true)
    else (store, .error .transport)

/-! ## Decimal rendering (Go `fmt` `%d` on `int64`) -/

/-- The decimal digits of a natural number, most significant first
(fuel-indexed so that it reduces definitionally; `n + 1` units of fuel always
suffice since the argument strictly shrinks). -/
def decDigitsAux : Nat → Nat → List Char
  | 0, _ => []
  | fuel + 1, n =>
    if n < 10 then [hexDigitChar n]
    else decDigitsAux fuel (n / 10) ++ [hexDigitChar (n % 10)]

/-- The decimal digits of a natural number, most significant first. -/
def decDigits (n : Nat) : List Char := decDigitsAux (n + 1) n

/-- Go `fmt.Sprintf` verb `%d` on an `int64`: signed decimal ASCII. -/
def goItoa (i : Int) : String :=
  if i < 0 then ⟨'-' :: decDigits i.natAbs⟩ else ⟨decDigits i.natAbs⟩

example : goItoa (-45) = "-45" := by decide
example : goItoa 0 = "0" := by decide
example : goItoa 1700000000000000000 = "1700000000000000000" := by decide

theorem hexDigitChar_ne_newline (n : Nat) : hexDigitChar n ≠ '\n' :=
  hex_ne_newline (hexDigitChar_mem n)

theorem decDigitsAux_no_newline (fuel : Nat) :
    ∀ n, ∀ c ∈ decDigitsAux fuel n, c ≠ '\n' := by
  induction fuel with
  | zero => intro n c hc; simp [decDigitsAux] at hc
  | succ fuel ih =>
    intro n c hc
    unfold decDigitsAux at hc
    split at hc
    · simp only [List.mem_singleton] at hc
      subst hc
      exact hexDigitChar_ne_newline _
    · rcases List.mem_append.1 hc with h1 | h2
      · exact ih (n / 10) c h1
      · simp only [List.mem_singleton] at h2
        subst h2
        exact hexDigitChar_ne_newline _

theorem decDigits_no_newline (n : Nat) : ∀ c ∈ decDigits n, c ≠ '\n' :=
  decDigitsAux_no_newline (n + 1) n

theorem goItoa_no_newline (i : Int) : ∀ c ∈ (goItoa i).data, c ≠ '\n' := by
  unfold goItoa
  split
  · intro c hc
    simp only [List.mem_cons] at hc
    rcases hc with rfl | hc
    · decide
    · exact decDigits_no_newline _ c hc
  · exact decDigits_no_newline _

/-! ## The build-cache adapter (`gobuild.GCSCache`) -/

/-- `gobuild.GCSCache` configuration: `pfx` models the source's field
`KeyPrefix`, `minUploadSize` models `MinUploadSize`. -/
structure GCSCache where
  pfx : String
  minUploadSize : Int
  deriving DecidableEq, Repr

/-- Go string slicing `s[:2]`, total version.  It agrees with Go whenever
`2 ≤ s.length`; `goSliceTo` below is the checked version recording the
slice-bounds panic. -/
def goTake2 (s : String) : String := ⟨s.data.take 2⟩

/-- Go string slicing `s[:n]`: `none` models the slice-bounds panic raised
when `n > len(s)`. -/
def goSliceTo (s : String) (n : Nat) : Option String :=
  if n ≤ s.data.length then some ⟨s.data.take n⟩ else none

/-- `GCSCache.makeKey`: `path.Join(s.KeyPrefix, path.Join(parts...))`. -/
def GCSCache.makeKey (c : GCSCache) (parts : List String) : String :=
  goPathJoin [c.pfx, goPathJoin parts]

/-- `GCSCache.actionKey`: `makeKey("action", id[:2], id)`. -/
def GCSCache.actionKey (c : GCSCache) (id : String) : String :=
  c.makeKey ["action", goTake2 id, id]

/-- `GCSCache.outputKey`: `makeKey("output", id[:2], id)`. -/
def GCSCache.outputKey (c : GCSCache) (id : String) : String :=
  c.makeKey ["output", goTake2 id, id]

/-- `GCSCache.actionKey` with the panic of `id[:2]` made explicit. -/
def GCSCache.actionKeyChecked (c : GCSCache) (id : String) : Option String :=
  (goSliceTo id 2).map (fun t => c.makeKey ["action", t, id])

/-- `GCSCache.outputKey` with the panic of `id[:2]` made explicit. -/
def GCSCache.outputKeyChecked (c : GCSCache) (id : String) : Option String :=
  (goSliceTo id 2).map (fun t => c.makeKey ["output", t, id])

/-- The expvar counters of `gobuild.GCSCache`. -/
structure GCSCounters where
  getLocalHit : Nat
  getFaultHit : Nat
  getFaultMiss : Nat
  putSkipSmall : Nat
  putGCSFound : Nat
  putGCSAction : Nat
  putGCSObject : Nat
  putGCSError : Nat
  deriving DecidableEq, Repr

/-- The all-zero counter state. -/
def GCSCounters.zero : GCSCounters := ⟨0, 0, 0, 0, 0, 0, 0, 0⟩

/-! ### `GCSCache.Get` -/

/-- Integer parsing for the action-record timestamp: all-digit content. -/
def parseDigits (l : List Char) : Option Nat :=
  if l = [] ∨ ¬ l.all Char.isDigit then none
  else some (l.foldl (fun acc c => acc * 10 + (c.toNat - 48)) 0)

/-- Signed decimal integer parsing. -/
def parseIntStr (s : String) : Option Int :=
  match s.data with
  | '-' :: rest => (parseDigits rest).map (fun n => -(n : Int))
  | l => (parseDigits l).map (fun n => (n : Int))

/-- Modelled from the spec: `parseAction` is defined in the S3 build adapter,
which is not among the analysed sources; per the spec the action record is
ASCII `"<hex-output-id> <int64-nanos>"` — two space-separated fields —
parsed into the output id and the Unix-nanosecond timestamp, with malformed
content a parse error. -/
def parseAction (b : List Nat) : Option (String × Int) :=
  let chars := b.map Char.ofNat
  let idPart := chars.takeWhile (fun ch => ¬ ch = ' ')
  match chars.dropWhile (fun ch => ¬ ch = ' ') with
  | ' ' :: tsPart =>
    if idPart = [] ∨ ' ' ∈ tsPart then none
    else (parseIntStr ⟨tsPart⟩).map (fun t => (⟨idPart⟩, t))
  | _ => none

instance {ε α : Type} [DecidableEq ε] [DecidableEq α] :
    DecidableEq (Except ε α) := fun x y =>
  match x, y with
  | .ok a, .ok b =>
    if h : a = b then .isTrue (congrArg Except.ok h)
    else .isFalse (fun hh => h (Except.ok.inj hh))
  | .error a, .error b =>
    if h : a = b then .isTrue (congrArg Except.error h)
    else .isFalse (fun hh => h (Except.error.inj hh))
  | .ok _, .error _ => .isFalse (fun hh => Except.noConfusion hh)
  | .error _, .ok _ => .isFalse (fun hh => Except.noConfusion hh)

/-- Error cases of `GCSCache.Get` (the `fmt.Errorf` returns in the source). -/
inductive GetErr
  | readAction
  | badAction
  | readObject
  | localPut
  deriving DecidableEq, Repr

/-- Environment oracle for one `GCSCache.Get` call: the local-stage lookup
result (`Local.Get`), transport-fault injectors for the two remote reads, and
the local-stage write result (`Local.Put`). -/
structure GetEnv where
  localRes : Except Unit (String × String)
  actionFault : Bool
  outputFault : Bool
  localPutRes : Except Unit String
  deriving DecidableEq, Repr

/-- Result of one `GCSCache.Get` call: final counters, the two returned
strings, the returned error, and every log line the call emitted
(`GCSCache.Get` contains no logging statements, so this list is always
empty — recorded explicitly because the spec claims local read errors are
logged). -/
structure GetOut where
  cnt : GCSCounters
  outputID : String
  diskPath : String
  err : Option GetErr
  logs : List String
  deriving DecidableEq, Repr

/-- The remote fault-in tail of `GCSCache.Get` (everything after the local
lookup): fetch the action record, parse it, fetch the output object, and
stage it locally. -/
def GCSCache.getRemote (c : GCSCache) (env : GetEnv) (store : Store)
    (cnt : GCSCounters) (actionID : String) : GetOut :=
  match clientGetData store (c.actionKey actionID) env.actionFault with
  | .error .notExist =>
    { cnt := { cnt with getFaultMiss := cnt.getFaultMiss + 1 },
      outputID := "", diskPath := "", err := none, logs := [] }
  | .error .transport =>
    { cnt, outputID := "", diskPath := "", err := some .readAction, logs := [] }
  | .ok action =>
    match parseAction action with
    | none => { cnt, outputID := "", diskPath := "", err := some .badAction, logs := [] }
    | some (outputID, _) =>
      match clientGet store (c.outputKey outputID) env.outputFault with
      | .error _ =>
        { cnt, outputID := "", diskPath := "", err := some .readObject, logs := [] }
      | .ok _ =>
        let cnt1 := { cnt with getFaultHit := cnt.getFaultHit + 1 }
        match env.localPutRes with
        | .ok diskPath =>
          { cnt := cnt1, outputID, diskPath, err := none, logs := [] }
        | .error _ =>
          { cnt := cnt1, outputID, diskPath := "", err := some .localPut, logs := [] }

/-- `GCSCache.Get`: local lookup first (a hit needs no error, a nonempty
object id and a nonempty disk path); on local miss *or local error* fall
through to the remote fault-in. -/
def GCSCache.get (c : GCSCache) (env : GetEnv) (store : Store)
    (cnt : GCSCounters) (actionID : String) : GetOut :=
  match env.localRes with
  | .ok (objID, diskPath) =>
    if objID ≠ "" ∧ diskPath ≠ "" then
      { cnt := { cnt with getLocalHit := cnt.getLocalHit + 1 },
        outputID := objID, diskPath, err := none, logs := [] }
    else c.getRemote env store cnt actionID
  | .error _ => c.getRemote env store cnt actionID

/-! ### `GCSCache.Put` and its background upload task -/

/-- The `gocache.Object` passed to `Put`. -/
structure PutObj where
  actionID : String
  outputID : String
  size : Int
  body : List Nat
  mtime : Int
  deriving DecidableEq, Repr

/-- Environment oracle for the foreground of `GCSCache.Put`: the local-stage
write result. -/
structure PutEnv where
  localPut : Except Unit String
  deriving DecidableEq, Repr

/-- A background upload task enqueued by `GCSCache.Put`.  `etag` is the value
of `etr.ETag()` — the content hash of the bytes streamed through the local
write, i.e. of `body` — and `body` is the content of the staged file the task
re-opens (the stage wrote exactly the object body). -/
structure PutTask where
  actionID : String
  outputID : String
  etag : String
  body : List Nat
  deriving DecidableEq, Repr

/-- Result of the foreground of `GCSCache.Put`. -/
structure PutOut where
  diskPath : String
  err : Option Unit
  cnt : GCSCounters
  tasks : List PutTask
  deriving DecidableEq, Repr

/-- The foreground of `GCSCache.Put`: write to the local stage (failure is
fatal and nothing is forwarded), skip the remote entirely for objects smaller
than `MinUploadSize`, otherwise enqueue one background upload task. -/
def GCSCache.put (etagOf : List Nat → String) (c : GCSCache) (env : PutEnv)
    (cnt : GCSCounters) (obj : PutObj) : PutOut :=
  match env.localPut with
  | .error _ => { diskPath := "", err := some (), cnt, tasks := [] }
  | .ok diskPath =>
    if obj.size < c.minUploadSize then
      { diskPath, err := none,
        cnt := { cnt with putSkipSmall := cnt.putSkipSmall + 1 }, tasks := [] }
    else
      { diskPath, err := none, cnt,
        tasks := [{ actionID := obj.actionID, outputID := obj.outputID,
                    etag := etagOf obj.body, body := obj.body }] }

/-- Environment oracle for one background upload task: whether `os.Open`
succeeds, the `Stat` result (the staged file's modification time in Unix
nanoseconds, or `none` for a stat error), and writer-failure oracles for the
conditional output put and the action put. -/
structure TaskEnv where
  openOk : Bool
  statRes : Option Int
  putCondWriteOk : Bool
  actionPutOk : Bool
  deriving DecidableEq, Repr

/-- The all-success task environment with modification time `m`. -/
def TaskEnv.ok (m : Int) : TaskEnv :=
  { openOk := true, statRes := some m, putCondWriteOk := true, actionPutOk := true }

/-- Outcome of a conditional put as recorded in the remote-operation trace. -/
inductive PCOutcome
  | written
  | found
  | failed
  deriving DecidableEq, Repr

/-- Remote operations performed by a background upload task, in order. -/
inductive RemoteOp
  | putCondOutput (key contentHash : String) (outcome : PCOutcome)
  | putAction (key record : String)
  deriving DecidableEq, Repr

/-- Log lines emitted by a background upload task. -/
inductive GLog
  | openErr
  | statErr
  | putObjectErr
  | putActionErr
  deriving DecidableEq, Repr

/-- Result of one background upload task. -/
structure TaskOut where
  store : Store
  cnt : GCSCounters
  trace : List RemoteOp
  logs : List GLog
  err : Bool
  deriving DecidableEq, Repr

/-- The action record written by the background task:
`fmt.Sprintf("%s %d", obj.OutputID, fi.ModTime().UnixNano())`. -/
def actionRecord (outputID : String) (nanos : Int) : String :=
  outputID ++ " " ++ goItoa nanos

/-- The ASCII bytes of a string (the store holds byte lists). -/
def strBytes (s : String) : List Nat := s.data.map Char.toNat

/-- One background upload task of `GCSCache.Put`: open and stat the staged
file (errors count `put_gcs_error` and abort), conditionally put the output
object keyed by the ETag (`written` counts `put_gcs_object`, `found` counts
`put_gcs_found`, an error counts `put_gcs_error` and aborts), and only then
write the action record (an error there is logged but counts nothing). -/
def GCSCache.runTask (etagOf : List Nat → String) (c : GCSCache) (env : TaskEnv)
    (t : PutTask) (store : Store) (cnt : GCSCounters) : TaskOut :=
  if ¬ env.openOk then
    { store, cnt := { cnt with putGCSError := cnt.putGCSError + 1 },
      trace := [], logs := [.openErr], err := true }
  else
    match env.statRes with
    | none =>
      { store, cnt := { cnt with putGCSError := cnt.putGCSError + 1 },
        trace := [], logs := [.statErr], err := true }
    | some mtimeNanos =>
      let outKey := c.outputKey t.outputID
      let res := clientPutCond etagOf store outKey t.etag t.body env.putCondWriteOk
      match res.2 with
      | .error _ =>
        { store := res.1, cnt := { cnt with putGCSError := cnt.putGCSError + 1 },
          trace := [.putCondOutput outKey t.etag .failed],
          logs := [.putObjectErr], err := true }
      | .ok written =>
        let cnt1 :=
          if written then { cnt with putGCSObject := cnt.putGCSObject + 1 }
          else { cnt with putGCSFound := cnt.putGCSFound + 1 }
        let outOp := RemoteOp.putCondOutput outKey t.etag
          (if written then .written else .found)
        let record := actionRecord t.outputID mtimeNanos
        let actKey := c.actionKey t.actionID
        if env.actionPutOk then
          { store := (clientPut etagOf res.1 actKey (strBytes record) true).1,
            cnt := { cnt1 with putGCSAction := cnt1.putGCSAction + 1 },
            trace := [outOp, .putAction actKey record], logs := [], err := false }
        else
          { store := res.1, cnt := cnt1, trace := [outOp],
            logs := [.putActionErr], err := true }

/-- Run a list of background upload tasks to completion, in order, each with
its own environment oracle. -/
def GCSCache.runTasks (etagOf : List Nat → String) (c : GCSCache) :
    List (TaskEnv × PutTask) → Store → GCSCounters → Store × GCSCounters
  | [], store, cnt => (store, cnt)
  | (env, t) :: rest, store, cnt =>
    let out := c.runTask etagOf env t store cnt
    GCSCache.runTasks etagOf c rest out.store out.cnt

/-! ## The module-proxy adapter (`modproxy.StorageCacher`) -/

/-- `modproxy.StorageCacher` configuration: `localDir` models `Local`, `pfx`
models `KeyPrefix`, `logRequests` models `LogRequests` (`Logf` is taken to be
set, so `logf` lines are always recorded). -/
structure StorageCacher where
  localDir : String
  pfx : String
  logRequests : Bool
  deriving DecidableEq, Repr

/-- `StorageCacher.makeKey`: `path.Join(c.KeyPrefix, hash[:2], hash)`. -/
def StorageCacher.makeKey (c : StorageCacher) (hash : String) : String :=
  goPathJoin [c.pfx, goTake2 hash, hash]

/-- setup.go wires the module cacher with
`KeyPrefix: path.Join(flags.KeyPrefix, "module")`. -/
def modProxyKeyPfx (flagPfx : String) : String := goPathJoin [flagPfx, "module"]

/-- `modproxy.hashName`: `fmt.Sprintf` of `%x` on `sha256.Sum256(name)`;
`digest` is the 32-byte SHA-256 digest of the name (the hash function itself
is a vendor-library collaborator). -/
def hashName (digest : List Nat) : String := hexBytes digest

/-- The expvar counters of `modproxy.StorageCacher` (counts as `Nat`, byte
totals as `Int` mirroring `expvar.Int`). -/
structure ModCounters where
  pathError : Nat
  getRequest : Nat
  getLocalHit : Nat
  getLocalMiss : Nat
  getFaultHit : Nat
  getFaultMiss : Nat
  getLocalError : Nat
  getFaultError : Nat
  getLocalBytes : Int
  getStorageBytes : Int
  putRequest : Nat
  putLocalHit : Nat
  putLocalError : Nat
  putStorageError : Nat
  putLocalBytes : Int
  putStorageBytes : Int
  deriving DecidableEq, Repr

/-- The all-zero module-cache counter state. -/
def ModCounters.zero : ModCounters :=
  ⟨0, 0, 0, 0, 0, 0, 0, 0, 0, 0, 0, 0, 0, 0, 0, 0⟩

/-- Errors returned by the module adapter's operations. -/
inductive MErr
  | pathErr
  | canceled
  | notFound
  | faultErr
  | localWrite
  | reopenErr
  | openErr
  deriving DecidableEq, Repr

/-- Outcome of the local `openReader` call: file content, the not-found
sentinel, or any other I/O error. -/
inductive LRead
  | found (data : List Nat)
  | notExist
  | ioErr
  deriving DecidableEq, Repr

/-- Log lines emitted by the module adapter. -/
inductive ModLog
  | beginGet (name : String)
  | endGet (name : String)
  | beginPut (name : String)
  | endPut (name : String)
  | faultHit (name : String)
  | localTreatMiss (name : String)
  deriving DecidableEq, Repr

/-- `StorageCacher.putLocal`: report whether the path already exists (via
`os.Stat`); if not, write the data atomically (`writeOk` is the write-failure
oracle; a failed atomic write leaves no file and reports zero bytes). -/
structure PutLocalOut where
  fs : FS
  cnt : ModCounters
  existed : Bool
  err : Option Unit
  deriving DecidableEq, Repr

def putLocalM (fs : FS) (cnt : ModCounters) (path : String) (data : List Nat)
    (writeOk : Bool) : PutLocalOut :=
  match lookupA fs path with
  | some _ => { fs, cnt, existed := true, err := none }
  | none =>
    if writeOk then
      { fs := insertA fs path data,
        cnt := { cnt with putLocalBytes := cnt.putLocalBytes + data.length },
        existed := false, err := none }
    else
      { fs, cnt := { cnt with putLocalError := cnt.putLocalError + 1 },
        existed := false, err := some () }

/-- Environment oracle for one `StorageCacher.Get` call. -/
structure ModGetEnv where
  mkdirOk : Bool
  localRead : LRead
  semaOk : Bool
  remoteFault : Bool
  writeOk : Bool
  reopen : Except Unit (List Nat)
  deriving DecidableEq, Repr

/-- Result of one `StorageCacher.Get` call. -/
structure ModGetOut where
  cnt : ModCounters
  fs : FS
  result : Except MErr (List Nat)
  logs : List ModLog
  deriving DecidableEq, Repr

/-- The remote fault-in tail of `StorageCacher.Get` (everything after the
local read): acquire the semaphore, fetch from storage, stage locally via
`putLocal`, and re-open the staged file. -/
def StorageCacher.modGetRemote (c : StorageCacher) (env : ModGetEnv)
    (store : Store) (fs : FS) (cnt : ModCounters) (name path hash : String)
    (logs logE : List ModLog) : ModGetOut :=
  if ¬ env.semaOk then { cnt, fs, result := .error .canceled, logs := logs ++ logE }
  else
    match clientGet store (c.makeKey hash) env.remoteFault with
    | .error .notExist =>
      { cnt := { cnt with getFaultMiss := cnt.getFaultMiss + 1 }, fs,
        result := .error .notFound, logs := logs ++ logE }
    | .error .transport =>
      { cnt := { cnt with getFaultError := cnt.getFaultError + 1 }, fs,
        result := .error .faultErr, logs := logs ++ logE }
    | .ok (data, _) =>
      let cnt1 := { cnt with getFaultHit := cnt.getFaultHit + 1 }
      let logs1 := logs ++ (if c.logRequests then [ModLog.faultHit name] else [])
      let pl := putLocalM fs cnt1 path data env.writeOk
      match pl.err with
      | some _ =>
        { cnt := pl.cnt, fs := pl.fs, result := .error .localWrite,
          logs := logs1 ++ logE }
      | none =>
        match env.reopen with
        | .ok d =>
          { cnt := pl.cnt, fs := pl.fs, result := .ok d, logs := logs1 ++ logE }
        | .error _ =>
          { cnt := pl.cnt, fs := pl.fs, result := .error .reopenErr,
            logs := logs1 ++ logE }

/-- `StorageCacher.Get`: count the request, build the hashed path, serve a
local hit, and otherwise fault in from storage.  A local read error other
than not-found is logged (`logf`, hence unconditionally), counted in
`get_local_error`, and treated as a miss. -/
def StorageCacher.modGet (c : StorageCacher) (env : ModGetEnv) (store : Store)
    (fs : FS) (cnt : ModCounters) (name : String) (digest : List Nat) : ModGetOut :=
  let cnt0 := { cnt with getRequest := cnt.getRequest + 1 }
  let hash := hashName digest
  let path := goPathJoin [c.localDir, goTake2 hash, hash]
  let logB : List ModLog := if c.logRequests then [ModLog.beginGet name] else []
  let logE : List ModLog := if c.logRequests then [ModLog.endGet name] else []
  if ¬ env.mkdirOk then
    { cnt := { cnt0 with pathError := cnt0.pathError + 1 }, fs,
      result := .error .pathErr, logs := logB ++ logE }
  else
    match env.localRead with
    | .found data =>
      let cntHit :=
        { cnt0 with
            getLocalHit := cnt0.getLocalHit + 1
            getLocalBytes := cnt0.getLocalBytes + data.length }
      { cnt := cntHit, fs, result := .ok data, logs := logB ++ logE }
    | .notExist =>
      c.modGetRemote env store fs
        { cnt0 with getLocalMiss := cnt0.getLocalMiss + 1 } name path hash logB logE
    | .ioErr =>
      c.modGetRemote env store fs
        { cnt0 with getLocalError := cnt0.getLocalError + 1 } name path hash
        (logB ++ [ModLog.localTreatMiss name]) logE

/-- A background write-back task enqueued by `StorageCacher.Put`. -/
structure ModTask where
  key : String
  body : List Nat
  size : Int
  deriving DecidableEq, Repr

/-- Environment oracle for one `StorageCacher.Put` call. -/
structure ModPutEnv where
  mkdirOk : Bool
  writeOk : Bool
  openOk : Bool
  deriving DecidableEq, Repr

/-- Result of the foreground of `StorageCacher.Put`. -/
structure ModPutOut where
  cnt : ModCounters
  fs : FS
  err : Option MErr
  tasks : List ModTask
  logs : List ModLog
  deriving DecidableEq, Repr

/-- `StorageCacher.Put`: count the request, build the hashed path, write
locally via `putLocal`; if the file already existed the write-back is elided
(`put_local_hit`), otherwise re-open the staged file and enqueue a background
storage put. -/
def StorageCacher.modPut (c : StorageCacher) (env : ModPutEnv) (fs : FS)
    (cnt : ModCounters) (name : String) (digest : List Nat) (data : List Nat) :
    ModPutOut :=
  let cnt0 := { cnt with putRequest := cnt.putRequest + 1 }
  let hash := hashName digest
  let path := goPathJoin [c.localDir, goTake2 hash, hash]
  let logB : List ModLog := if c.logRequests then [ModLog.beginPut name] else []
  let logE : List ModLog := if c.logRequests then [ModLog.endPut name] else []
  if ¬ env.mkdirOk then
    { cnt := { cnt0 with pathError := cnt0.pathError + 1 }, fs,
      err := some .pathErr, tasks := [], logs := logB ++ logE }
  else
    let pl := putLocalM fs cnt0 path data env.writeOk
    match pl.err with
    | some _ =>
      { cnt := pl.cnt, fs := pl.fs, err := some .localWrite, tasks := [],
        logs := logB ++ logE }
    | none =>
      if pl.existed then
        { cnt := { pl.cnt with putLocalHit := pl.cnt.putLocalHit + 1 },
          fs := pl.fs, err := none, tasks := [], logs := logB ++ logE }
      else if ¬ env.openOk then
        { cnt := { pl.cnt with putLocalError := pl.cnt.putLocalError + 1 },
          fs := pl.fs, err := some .openErr, tasks := [], logs := logB ++ logE }
      else
        { cnt := pl.cnt, fs := pl.fs, err := none,
          tasks := [{ key := c.makeKey hash, body := data,
                      size := (data.length : Int) }],
          logs := logB ++ logE }

/-! ## Key-layout lemmas -/

/-- A well-formed deployment namespace: empty, or made of nonempty non-dot
segments (no leading, trailing or doubled slash, no `.` or `..`). -/
def PrefixOK (p : String) : Prop :=
  p = "" ∨ ∀ s ∈ splitSlash p.data, GoodSeg s

theorem string_eq_of_data {s t : String} (h : s.data = t.data) : s = t := by
  cases s; cases t; exact congrArg String.mk h

theorem string_data_append (s t : String) : (s ++ t).data = s.data ++ t.data := rfl

/-- Splitting a three-segment slash-free join recovers the segments. -/
theorem splitSlash_three (a b d : List Char)
    (ha : a ≠ [] ∧ '/' ∉ a) (hb : b ≠ [] ∧ '/' ∉ b) (hd : d ≠ [] ∧ '/' ∉ d) :
    splitSlash (a ++ '/' :: (b ++ '/' :: d)) = [a, b, d] := by
  rw [splitSlash_append, splitSlash_append, splitSlash_no_slash a ha.1 ha.2,
    splitSlash_no_slash b hb.1 hb.2, splitSlash_no_slash d hd.1 hd.2]
  rfl

/-- The inner `path.Join` of three slash-free good segments is their plain
slash-join. -/
theorem goPathJoinL_three (a b d : List Char)
    (ha : a ≠ [] ∧ '/' ∉ a) (hb : b ≠ [] ∧ '/' ∉ b) (hd : d ≠ [] ∧ '/' ∉ d)
    (ga : GoodSeg a) (gb : GoodSeg b) (gd : GoodSeg d) :
    goPathJoinL [a, b, d] = a ++ '/' :: (b ++ '/' :: d) := by
  have hdrop : [a, b, d].dropWhile (· = []) = [a, b, d] := by
    rw [List.dropWhile_cons_of_neg (by simpa using ha.1)]
  have hjoin : joinSlash [a, b, d] = a ++ '/' :: (b ++ '/' :: d) := by
    rw [joinSlash_cons, joinSlash_cons, joinSlash_single]
  unfold goPathJoinL
  rw [hdrop]
  have : goPathCleanL (joinSlash [a, b, d]) = a ++ '/' :: (b ++ '/' :: d) := by
    rw [hjoin]
    apply goPathCleanL_good
    rw [splitSlash_three a b d ha hb hd]
    intro s hs
    simp only [List.mem_cons, List.not_mem_nil, or_false] at hs
    rcases hs with rfl | rfl | rfl
    · exact ga
    · exact gb
    · exact gd
  simpa using this

/-- The outer `path.Join` with a well-formed namespace is plain
concatenation (with no separator when the namespace is empty). -/
theorem goPathJoinL_outer (p q : List Char)
    (hp : p = [] ∨ ∀ s ∈ splitSlash p, GoodSeg s)
    (hq : q ≠ []) (hqg : ∀ s ∈ splitSlash q, GoodSeg s) :
    goPathJoinL [p, q] = (if p = [] then [] else p ++ ['/']) ++ q := by
  rcases hp with rfl | hpg
  · unfold goPathJoinL
    have hdrop : [([] : List Char), q].dropWhile (· = []) = [q] := by
      rw [List.dropWhile_cons_of_pos (by simp), List.dropWhile_cons_of_neg (by simpa using hq)]
    rw [hdrop]
    show goPathCleanL (joinSlash [q]) = _
    rw [joinSlash_single, goPathCleanL_good q hqg]
    simp
  · have hpne : p ≠ [] := by
      intro hp0
      subst hp0
      exact (hpg [] (by simp [splitSlash])).1 rfl
    unfold goPathJoinL
    have hdrop : [p, q].dropWhile (· = []) = [p, q] := by
      rw [List.dropWhile_cons_of_neg (by simpa using hpne)]
    rw [hdrop]
    show goPathCleanL (joinSlash [p, q]) = _
    have hjoin : joinSlash [p, q] = p ++ '/' :: q := by
      rw [joinSlash_cons, joinSlash_single]
    have hcl : goPathCleanL (joinSlash [p, q]) = p ++ '/' :: q := by
      rw [hjoin]
      apply goPathCleanL_good
      rw [splitSlash_append]
      intro s hs
      rcases List.mem_append.1 hs with h1 | h2
      · exact hpg s h1
      · exact hqg s h2
    rw [hcl]
    simp [hpne]

/-- All-hex nonempty segments are slash-free and good. -/
theorem hexSeg_ok (l : List Char) (hne : l ≠ []) (h : ∀ c ∈ l, c ∈ hexChars) :
    (l ≠ [] ∧ '/' ∉ l) ∧ GoodSeg l := by
  refine ⟨⟨hne, fun hm => hex_ne_slash (h '/' hm) rfl⟩, goodSeg_of_hex l hne h⟩

/-- The key produced by `GCSCache.makeKey` for three slash-free good
segments under a well-formed namespace. -/
theorem makeKey_eq (c : GCSCache) (a b d : String)
    (hp : PrefixOK c.pfx)
    (ha : a.data ≠ [] ∧ '/' ∉ a.data) (hb : b.data ≠ [] ∧ '/' ∉ b.data)
    (hd : d.data ≠ [] ∧ '/' ∉ d.data)
    (ga : GoodSeg a.data) (gb : GoodSeg b.data) (gd : GoodSeg d.data) :
    c.makeKey [a, b, d] =
      (if c.pfx = "" then "" else c.pfx ++ "/") ++ a ++ "/" ++ b ++ "/" ++ d := by
  apply string_eq_of_data
  have hinner : goPathJoinL [a.data, b.data, d.data] =
      a.data ++ '/' :: (b.data ++ '/' :: d.data) :=
    goPathJoinL_three _ _ _ ha hb hd ga gb gd
  have hqg : ∀ s ∈ splitSlash (a.data ++ '/' :: (b.data ++ '/' :: d.data)), GoodSeg s := by
    rw [splitSlash_three _ _ _ ha hb hd]
    intro s hs
    simp only [List.mem_cons, List.not_mem_nil, or_false] at hs
    rcases hs with rfl | rfl | rfl
    · exact ga
    · exact gb
    · exact gd
  have hqne : a.data ++ '/' :: (b.data ++ '/' :: d.data) ≠ [] := by
    simp [ha.1]
  have hp0 : c.pfx.data = [] ∨ ∀ s ∈ splitSlash c.pfx.data, GoodSeg s := by
    rcases hp with h | h
    · left; rw [h]
    · right; exact h
  show goPathJoinL [c.pfx.data, (goPathJoin [a, b, d]).data] = _
  have hj : (goPathJoin [a, b, d]).data = a.data ++ '/' :: (b.data ++ '/' :: d.data) := by
    show goPathJoinL [a.data, b.data, d.data] = _
    exact hinner
  rw [hj, goPathJoinL_outer _ _ hp0 hqne hqg]
  have hpd : (c.pfx = "") ↔ (c.pfx.data = []) := by
    constructor
    · intro h; rw [h]
    · intro h; exact string_eq_of_data h
  by_cases hp1 : c.pfx = ""
  · rw [if_pos hp1, if_pos (hpd.1 hp1)]
    simp [string_data_append]
  · rw [if_neg hp1, if_neg (fun h => hp1 (hpd.2 h))]
    simp [string_data_append]

/-- The flat three-element `path.Join` whose first element may itself span
several good segments. -/
theorem goPathJoinL_flat3 (pm b d : List Char)
    (hpm : pm ≠ []) (hpmg : ∀ s ∈ splitSlash pm, GoodSeg s)
    (hb : b ≠ [] ∧ '/' ∉ b) (hd : d ≠ [] ∧ '/' ∉ d)
    (gb : GoodSeg b) (gd : GoodSeg d) :
    goPathJoinL [pm, b, d] = pm ++ '/' :: (b ++ '/' :: d) := by
  unfold goPathJoinL
  have hdrop : [pm, b, d].dropWhile (· = []) = [pm, b, d] := by
    rw [List.dropWhile_cons_of_neg (by simpa using hpm)]
  rw [hdrop]
  show goPathCleanL (joinSlash [pm, b, d]) = _
  have hjoin : joinSlash [pm, b, d] = pm ++ '/' :: (b ++ '/' :: d) := by
    rw [joinSlash_cons, joinSlash_cons, joinSlash_single]
  rw [hjoin]
  apply goPathCleanL_good
  rw [splitSlash_append]
  intro s hs
  rcases List.mem_append.1 hs with h1 | h2
  · exact hpmg s h1
  · rw [splitSlash_append, splitSlash_no_slash b hb.1 hb.2,
      splitSlash_no_slash d hd.1 hd.2] at h2
    simp only [List.cons_append, List.nil_append, List.mem_cons,
      List.not_mem_nil, or_false] at h2
    rcases h2 with rfl | rfl
    · exact gb
    · exact gd

/-- Segment facts about `id[:2]` for a hex id of length at least two. -/
theorem take2_seg_ok (id : String) (hid : IsHexStr id) (hlen : 2 ≤ id.data.length) :
    ((goTake2 id).data ≠ [] ∧ '/' ∉ (goTake2 id).data) ∧ GoodSeg (goTake2 id).data := by
  have hne : (goTake2 id).data ≠ [] := by
    show id.data.take 2 ≠ []
    intro h
    have hlen2 : (id.data.take 2).length = 0 := by rw [h]; rfl
    rw [List.length_take] at hlen2
    omega
  have hhex : ∀ c ∈ (goTake2 id).data, c ∈ hexChars := by
    intro c hc
    exact hid c (List.take_subset 2 id.data hc)
  exact hexSeg_ok _ hne hhex

/-- The namespace `path.Join(flags.KeyPrefix, "module")` wired in setup.go:
its character content and the goodness of its segments. -/
theorem modProxyKeyPfx_spec (p : String) (hp : PrefixOK p) :
    (modProxyKeyPfx p).data =
      (if p = "" then [] else p.data ++ ['/']) ++ "module".data ∧
    (modProxyKeyPfx p).data ≠ [] ∧
    ∀ s ∈ splitSlash (modProxyKeyPfx p).data, GoodSeg s := by
  have hmod : ("module".data ≠ [] ∧ '/' ∉ "module".data) ∧ GoodSeg "module".data := by
    refine ⟨⟨by decide, by decide⟩, by decide, by decide, by decide⟩
  have hp0 : p.data = [] ∨ ∀ s ∈ splitSlash p.data, GoodSeg s := by
    rcases hp with h | h
    · left; rw [h]
    · right; exact h
  have hqg : ∀ s ∈ splitSlash "module".data, GoodSeg s := by
    rw [splitSlash_no_slash _ hmod.1.1 hmod.1.2]
    intro s hs
    simp only [List.mem_singleton] at hs
    subst hs
    exact hmod.2
  have hdata : (modProxyKeyPfx p).data =
      (if p.data = [] then [] else p.data ++ ['/']) ++ "module".data := by
    show goPathJoinL [p.data, "module".data] = _
    exact goPathJoinL_outer _ _ hp0 hmod.1.1 hqg
  have hpd : (p = "") ↔ (p.data = []) := by
    constructor
    · intro h; rw [h]
    · intro h; exact string_eq_of_data h
  constructor
  · rw [hdata]
    by_cases h1 : p = ""
    · rw [if_pos h1, if_pos (hpd.1 h1)]
    · rw [if_neg h1, if_neg (fun h => h1 (hpd.2 h))]
  constructor
  · rw [hdata]
    intro h
    have := congrArg List.length h
    by_cases h1 : p.data = [] <;> simp [h1] at this
  · intro s hs
    rw [hdata] at hs
    by_cases h1 : p.data = []
    · rw [if_pos h1, List.nil_append] at hs
      exact hqg s hs
    · rw [if_neg h1, List.append_assoc, List.singleton_append,
        splitSlash_append] at hs
      rcases List.mem_append.1 hs with ha | hb
      · rcases hp0 with h | h
        · exact absurd h h1
        · exact h s ha
      · exact hqg s hb

/-! ### Background-task case analysis -/

theorem runTask_openErr (etagOf : List Nat → String) (c : GCSCache)
    (env : TaskEnv) (t : PutTask) (store : Store) (cnt : GCSCounters)
    (h : env.openOk = false) :
    c.runTask etagOf env t store cnt =
      ⟨store, { cnt with putGCSError := cnt.putGCSError + 1 }, [], [.openErr], true⟩ := by
  unfold GCSCache.runTask
  simp [h]

theorem runTask_statErr (etagOf : List Nat → String) (c : GCSCache)
    (env : TaskEnv) (t : PutTask) (store : Store) (cnt : GCSCounters)
    (ho : env.openOk = true) (hs : env.statRes = none) :
    c.runTask etagOf env t store cnt =
      ⟨store, { cnt with putGCSError := cnt.putGCSError + 1 }, [], [.statErr], true⟩ := by
  unfold GCSCache.runTask
  simp [ho, hs]

theorem runTask_pcErr (etagOf : List Nat → String) (c : GCSCache)
    (env : TaskEnv) (t : PutTask) (store : Store) (cnt : GCSCounters)
    (m : Int) (e : RErr)
    (ho : env.openOk = true) (hs : env.statRes = some m)
    (hc : (clientPutCond etagOf store (c.outputKey t.outputID) t.etag t.body
      env.putCondWriteOk).2 = .error e) :
    c.runTask etagOf env t store cnt =
      ⟨(clientPutCond etagOf store (c.outputKey t.outputID) t.etag t.body
          env.putCondWriteOk).1,
        { cnt with putGCSError := cnt.putGCSError + 1 },
        [.putCondOutput (c.outputKey t.outputID) t.etag .failed],
        [.putObjectErr], true⟩ := by
  unfold GCSCache.runTask
  simp only [ho, hs]
  rw [hc]  -- hmm: scrutinee rewriting
  simp

theorem runTask_okCase (etagOf : List Nat → String) (c : GCSCache)
    (env : TaskEnv) (t : PutTask) (store : Store) (cnt : GCSCounters)
    (m : Int) (written : Bool)
    (ho : env.openOk = true) (hs : env.statRes = some m)
    (hc : (clientPutCond etagOf store (c.outputKey t.outputID) t.etag t.body
      env.putCondWriteOk).2 = .ok written)
    (ha : env.actionPutOk = true) :
    c.runTask etagOf env t store cnt =
      ⟨insertA (clientPutCond etagOf store (c.outputKey t.outputID) t.etag
          t.body env.putCondWriteOk).1
          (c.actionKey t.actionID)
          ⟨strBytes (actionRecord t.outputID m),
            etagOf (strBytes (actionRecord t.outputID m))⟩,
        { (if written then { cnt with putGCSObject := cnt.putGCSObject + 1 }
           else { cnt with putGCSFound := cnt.putGCSFound + 1 }) with
            putGCSAction := cnt.putGCSAction + 1 },
        [.putCondOutput (c.outputKey t.outputID) t.etag
            (if written then .written else .found),
          .putAction (c.actionKey t.actionID) (actionRecord t.outputID m)],
        [], false⟩ := by
  unfold GCSCache.runTask
  simp only [ho, hs]
  rw [hc]
  cases written <;> simp [ha, clientPut]

theorem runTask_actionErr (etagOf : List Nat → String) (c : GCSCache)
    (env : TaskEnv) (t : PutTask) (store : Store) (cnt : GCSCounters)
    (m : Int) (written : Bool)
    (ho : env.openOk = true) (hs : env.statRes = some m)
    (hc : (clientPutCond etagOf store (c.outputKey t.outputID) t.etag t.body
      env.putCondWriteOk).2 = .ok written)
    (ha : env.actionPutOk = false) :
    c.runTask etagOf env t store cnt =
      ⟨(clientPutCond etagOf store (c.outputKey t.outputID) t.etag t.body
          env.putCondWriteOk).1,
        (if written then { cnt with putGCSObject := cnt.putGCSObject + 1 }
         else { cnt with putGCSFound := cnt.putGCSFound + 1 }),
        [.putCondOutput (c.outputKey t.outputID) t.etag
            (if written then .written else .found)],
        [.putActionErr], true⟩ := by
  unfold GCSCache.runTask
  simp only [ho, hs]
  rw [hc]
  cases written <;> simp [ha]

/-- With the writer oracle set, `PutCond` on the pure store never fails. -/
theorem clientPutCond_true_ok (etagOf : List Nat → String) (store : Store)
    (key hash : String) (data : List Nat) :
    ∃ w, (clientPutCond etagOf store key hash data true).2 = .ok w := by
  unfold clientPutCond
  cases lookupA store key with
  | none => exact ⟨true, rfl⟩
  | some o =>
    by_cases he : o.etag = hash
    · exact ⟨false, by simp [he]⟩
    · exact ⟨true, by simp [he]⟩

/-! ## The claims -/

/-- **C2.** For every put with id `x`, the remote key matches
`^(prefix/)?kind/x[0:2]/x$` with `kind ∈ {action, output, module}` and the
`x[0:2]` segment equal to the first two hex characters of `x`: the build
adapter produces `[prefix/]action/x[0:2]/x` and `[prefix/]output/x[0:2]/x`,
and the module adapter (whose `KeyPrefix` is wired in setup.go as
`path.Join(flags.KeyPrefix, "module")`) produces `[prefix/]module/h[0:2]/h`
for `h = hex(sha256(name))`. -/
theorem claim_C2 (p id ld : String) (m : Int) (lr : Bool) (digest : List Nat)
    (hp : PrefixOK p) (hid : IsHexStr id) (hlen : 2 ≤ id.data.length)
    (hdig : digest.length = 32) :
    GCSCache.actionKey ⟨p, m⟩ id =
      (if p = "" then "" else p ++ "/") ++ "action" ++ "/" ++ goTake2 id ++ "/" ++ id ∧
    GCSCache.outputKey ⟨p, m⟩ id =
      (if p = "" then "" else p ++ "/") ++ "output" ++ "/" ++ goTake2 id ++ "/" ++ id ∧
    StorageCacher.makeKey ⟨ld, modProxyKeyPfx p, lr⟩ (hashName digest) =
      (if p = "" then "" else p ++ "/") ++ "module" ++ "/" ++
        goTake2 (hashName digest) ++ "/" ++ hashName digest ∧
    (goTake2 id).data = id.data.take 2 ∧
    (goTake2 (hashName digest)).data = (hashName digest).data.take 2 := by
  obtain ⟨h2a, h2g⟩ := take2_seg_ok id hid hlen
  have hidne : id.data ≠ [] := by
    intro h
    rw [h] at hlen
    simp at hlen
  obtain ⟨hida, hidg⟩ := hexSeg_ok id.data hidne hid
  refine ⟨?_, ?_, ?_, rfl, rfl⟩
  · exact makeKey_eq ⟨p, m⟩ "action" (goTake2 id) id hp (by decide) h2a hida
      (by decide) h2g hidg
  · exact makeKey_eq ⟨p, m⟩ "output" (goTake2 id) id hp (by decide) h2a hida
      (by decide) h2g hidg
  · obtain ⟨hpm, hpmne, hpmg⟩ := modProxyKeyPfx_spec p hp
    have hhx : IsHexStr (hashName digest) := hexBytes_isHex digest
    have hhlen : (hashName digest).data.length = 64 := by
      show (hexBytes digest).data.length = 64
      rw [hexBytes_length, hdig]
    have hhne : (hashName digest).data ≠ [] := by
      intro h
      rw [h] at hhlen
      simp at hhlen
    obtain ⟨ht2, gt2⟩ := take2_seg_ok (hashName digest) hhx (by omega)
    obtain ⟨hha, hhg⟩ := hexSeg_ok (hashName digest).data hhne hhx
    have hout := goPathJoinL_flat3 (modProxyKeyPfx p).data
      (goTake2 (hashName digest)).data (hashName digest).data hpmne hpmg
      ht2 hha gt2 hhg
    apply string_eq_of_data
    show goPathJoinL [(modProxyKeyPfx p).data, (goTake2 (hashName digest)).data,
      (hashName digest).data] = _
    rw [hout, hpm]
    by_cases h1 : p = ""
    · rw [if_pos h1]
      simp only [string_data_append, if_pos h1]
      simp [List.append_assoc]
    · rw [if_neg h1]
      simp only [string_data_append, if_neg h1]
      simp [List.append_assoc]

/-- **C2 witness.** -/
theorem claim_C2_witness :
    PrefixOK "tenant" ∧ IsHexStr "abcd" ∧
    GCSCache.actionKey ⟨"tenant", 0⟩ "abcd" = "tenant/action/ab/abcd" ∧
    GCSCache.outputKey ⟨"tenant", 0⟩ "abcd" = "tenant/output/ab/abcd" ∧
    StorageCacher.makeKey ⟨"/loc", modProxyKeyPfx "tenant", false⟩
        (hashName (List.replicate 32 0)) =
      "tenant/module/00/" ++ hashName (List.replicate 32 0) := by
  have h := claim_C2 "tenant" "abcd" "/loc" 0 false (List.replicate 32 0)
    (Or.inr (by decide)) (by decide) (by decide) (by decide)
  exact ⟨Or.inr (by decide), by decide, h.1.trans (by decide),
    h.2.1.trans (by decide), h.2.2.1.trans (by decide)⟩

/-- **C10.** Remote-key construction in the build adapter evaluates `id[:2]`
with no length guard: the checked embedding of `actionKey`/`outputKey` panics
(returns `none`) exactly when the id has fewer than two characters, so
`len(id) ≥ 2` is the precondition for these operations to be total. -/
theorem claim_C10 (c : GCSCache) (id : String) :
    c.actionKeyChecked id =
      (if id.data.length < 2 then none else some (c.actionKey id)) ∧
    c.outputKeyChecked id =
      (if id.data.length < 2 then none else some (c.outputKey id)) := by
  constructor
  · unfold GCSCache.actionKeyChecked goSliceTo
    rcases Nat.lt_or_ge id.data.length 2 with h | h
    · rw [if_neg (by omega), if_pos h]
      rfl
    · rw [if_pos (by omega), if_neg (by omega)]
      rfl
  · unfold GCSCache.outputKeyChecked goSliceTo
    rcases Nat.lt_or_ge id.data.length 2 with h | h
    · rw [if_neg (by omega), if_pos h]
      rfl
    · rw [if_pos (by omega), if_neg (by omega)]
      rfl

/-- **C3.** `PutCond(key, contentHash, data)` writes iff the object is absent
or its stored ETag differs from `contentHash`; with an existing matching ETag
it returns `(false, nil)` without writing, and on a successful write it
returns `(true, nil)` with the object stored. -/
theorem claim_C3 (etagOf : List Nat → String) (store : Store)
    (key hash : String) (data : List Nat) :
    ((∃ o, lookupA store key = some o ∧ o.etag = hash) →
      clientPutCond etagOf store key hash data true = (store, .ok false)) ∧
    ((∀ o, lookupA store key = some o → o.etag ≠ hash) →
      clientPutCond etagOf store key hash data true =
        (insertA store key ⟨data, etagOf data⟩, .ok true)) := by
  constructor
  · rintro ⟨o, ho, he⟩
    simp [clientPutCond, ho, he]
  · intro h
    cases hl : lookupA store key with
    | none => simp [clientPutCond, hl]
    | some o => simp [clientPutCond, hl, h o hl]

/-- **C3 witness.** -/
theorem claim_C3_witness :
    clientPutCond (fun _ => "h2") [("k", ⟨[1], "e1"⟩)] "k" "e1" [2] true =
      ([("k", ⟨[1], "e1"⟩)], .ok false) ∧
    clientPutCond (fun _ => "h2") [] "k" "e1" [2] true =
      ([("k", ⟨[2], "h2"⟩)], .ok true) := by
  constructor
  · exact (claim_C3 (fun _ => "h2") [("k", ⟨[1], "e1"⟩)] "k" "e1" [2]).1
      ⟨⟨[1], "e1"⟩, by decide, rfl⟩
  · exact (claim_C3 (fun _ => "h2") [] "k" "e1" [2]).2
      (fun o ho => Option.noConfusion ho)

theorem clientPutCond_absent (etagOf : List Nat → String) (store : Store)
    (key hash : String) (data : List Nat) (h : lookupA store key = none) :
    clientPutCond etagOf store key hash data true =
      (insertA store key ⟨data, etagOf data⟩, .ok true) := by
  simp [clientPutCond, h]

theorem clientPutCond_found (etagOf : List Nat → String) (store : Store)
    (key hash : String) (data : List Nat) (o : GObj)
    (h : lookupA store key = some o) (he : o.etag = hash) :
    clientPutCond etagOf store key hash data true = (store, .ok false) := by
  simp [clientPutCond, h, he]

/-- A fault-free task always settles exactly one of `put_gcs_object` and
`put_gcs_found`. -/
theorem runTask_sum_ok (etagOf : List Nat → String) (c : GCSCache)
    (env : TaskEnv) (t : PutTask) (store : Store) (cnt : GCSCounters) (m : Int)
    (ho : env.openOk = true) (hs : env.statRes = some m)
    (hw : env.putCondWriteOk = true) :
    (c.runTask etagOf env t store cnt).cnt.putGCSObject +
      (c.runTask etagOf env t store cnt).cnt.putGCSFound =
    cnt.putGCSObject + cnt.putGCSFound + 1 := by
  obtain ⟨w, hcw⟩ :=
    clientPutCond_true_ok etagOf store (c.outputKey t.outputID) t.etag t.body
  have hc : (clientPutCond etagOf store (c.outputKey t.outputID) t.etag t.body
      env.putCondWriteOk).2 = .ok w := by rw [hw]; exact hcw
  cases ha : env.actionPutOk with
  | true =>
    rw [runTask_okCase etagOf c env t store cnt m w ho hs hc ha]
    cases w <;> simp <;> omega
  | false =>
    rw [runTask_actionErr etagOf c env t store cnt m w ho hs hc ha]
    cases w <;> simp <;> omega

theorem runTasks_sum (etagOf : List Nat → String) (c : GCSCache)
    (pairs : List (TaskEnv × PutTask)) (store : Store) (cnt : GCSCounters)
    (hok : ∀ pr ∈ pairs, pr.1.openOk = true ∧ pr.1.statRes.isSome = true ∧
      pr.1.putCondWriteOk = true) :
    (c.runTasks etagOf pairs store cnt).2.putGCSObject +
      (c.runTasks etagOf pairs store cnt).2.putGCSFound =
    cnt.putGCSObject + cnt.putGCSFound + pairs.length := by
  induction pairs generalizing store cnt with
  | nil => simp [GCSCache.runTasks]
  | cons pr rest ih =>
    obtain ⟨env, t⟩ := pr
    obtain ⟨ho, hsome, hw⟩ := hok (env, t) (by simp)
    obtain ⟨m, hs⟩ := Option.isSome_iff_exists.1 hsome
    simp only [GCSCache.runTasks, List.length_cons]
    rw [ih _ _ (fun pr hpr => hok pr (by simp [hpr]))]
    have hsum := runTask_sum_ok etagOf c env t store cnt m ho hs hw
    omega

/-- A fault-free task over a fresh output key, with the task fields spelled
out. -/
theorem runTask_ok_written (etagOf : List Nat → String) (c : GCSCache)
    (aID oID etg : String) (body : List Nat) (store : Store)
    (cnt : GCSCounters) (m : Int)
    (hc : (clientPutCond etagOf store (c.outputKey oID) etg body true).2 =
      .ok true) :
    c.runTask etagOf (TaskEnv.ok m) ⟨aID, oID, etg, body⟩ store cnt =
      ⟨insertA (clientPutCond etagOf store (c.outputKey oID) etg body true).1
          (c.actionKey aID)
          ⟨strBytes (actionRecord oID m), etagOf (strBytes (actionRecord oID m))⟩,
        { { cnt with putGCSObject := cnt.putGCSObject + 1 } with
            putGCSAction := cnt.putGCSAction + 1 },
        [.putCondOutput (c.outputKey oID) etg .written,
          .putAction (c.actionKey aID) (actionRecord oID m)],
        [], false⟩ := by
  have h := runTask_okCase etagOf c (TaskEnv.ok m) ⟨aID, oID, etg, body⟩
    store cnt m true rfl rfl hc rfl
  rw [h]
  rfl

/-- A fault-free task over an output key that already holds the same ETag. -/
theorem runTask_ok_found (etagOf : List Nat → String) (c : GCSCache)
    (aID oID etg : String) (body : List Nat) (store : Store)
    (cnt : GCSCounters) (m : Int)
    (hc : (clientPutCond etagOf store (c.outputKey oID) etg body true).2 =
      .ok false) :
    c.runTask etagOf (TaskEnv.ok m) ⟨aID, oID, etg, body⟩ store cnt =
      ⟨insertA (clientPutCond etagOf store (c.outputKey oID) etg body true).1
          (c.actionKey aID)
          ⟨strBytes (actionRecord oID m), etagOf (strBytes (actionRecord oID m))⟩,
        { { cnt with putGCSFound := cnt.putGCSFound + 1 } with
            putGCSAction := cnt.putGCSAction + 1 },
        [.putCondOutput (c.outputKey oID) etg .found,
          .putAction (c.actionKey aID) (actionRecord oID m)],
        [], false⟩ := by
  have h := runTask_okCase etagOf c (TaskEnv.ok m) ⟨aID, oID, etg, body⟩
    store cnt m false rfl rfl hc rfl
  rw [h]
  rfl

/-- Action and output keys never collide (they sit under distinct kind
segments). -/
theorem actionKey_ne_outputKey (c : GCSCache) (a o : String)
    (hp : PrefixOK c.pfx)
    (hha : IsHexStr a) (hla : 2 ≤ a.data.length)
    (hho : IsHexStr o) (hlo : 2 ≤ o.data.length) :
    c.actionKey a ≠ c.outputKey o := by
  obtain ⟨h2a, g2a⟩ := take2_seg_ok a hha hla
  have hane : a.data ≠ [] := by
    intro hh
    rw [hh] at hla
    simp at hla
  obtain ⟨haa, gaa⟩ := hexSeg_ok a.data hane hha
  obtain ⟨h2o, g2o⟩ := take2_seg_ok o hho hlo
  have hone : o.data ≠ [] := by
    intro hh
    rw [hh] at hlo
    simp at hlo
  obtain ⟨hoo, goo⟩ := hexSeg_ok o.data hone hho
  have e1 := makeKey_eq c "action" (goTake2 a) a hp (by decide) h2a haa
    (by decide) g2a gaa
  have e2 := makeKey_eq c "output" (goTake2 o) o hp (by decide) h2o hoo
    (by decide) g2o goo
  intro h
  have h' : c.makeKey ["action", goTake2 a, a] =
      c.makeKey ["output", goTake2 o, o] := h
  rw [e1, e2] at h'
  have hd := congrArg String.data h'
  simp only [string_data_append, List.append_assoc] at hd
  have hd2 := List.append_cancel_left hd
  simp [List.cons_append] at hd2

/-- **C4.** For a sequence of fault-free background upload tasks (one per
eligible `Put`), after all tasks complete
`put_gcs_object + put_gcs_found` has risen by exactly the number of tasks;
and for two `Put`s of byte-identical bodies at the same (initially absent)
output key, the first task increments `put_gcs_object` and the second
increments `put_gcs_found`. -/
theorem claim_C4 (etagOf : List Nat → String) (c : GCSCache)
    (pairs : List (TaskEnv × PutTask)) (store : Store) (cnt : GCSCounters)
    (hok : ∀ pr ∈ pairs, pr.1.openOk = true ∧ pr.1.statRes.isSome = true ∧
      pr.1.putCondWriteOk = true) :
    ((c.runTasks etagOf pairs store cnt).2.putGCSObject +
        (c.runTasks etagOf pairs store cnt).2.putGCSFound =
      cnt.putGCSObject + cnt.putGCSFound + pairs.length) ∧
    (∀ (a₁ a₂ o : String) (body : List Nat) (m₁ m₂ : Int)
        (store₀ : Store) (cnt₀ : GCSCounters),
      PrefixOK c.pfx → IsHexStr a₁ → 2 ≤ a₁.data.length →
      IsHexStr o → 2 ≤ o.data.length →
      lookupA store₀ (c.outputKey o) = none →
      (c.runTask etagOf (TaskEnv.ok m₁) ⟨a₁, o, etagOf body, body⟩ store₀
          cnt₀).cnt.putGCSObject = cnt₀.putGCSObject + 1 ∧
      (c.runTask etagOf (TaskEnv.ok m₁) ⟨a₁, o, etagOf body, body⟩ store₀
          cnt₀).cnt.putGCSFound = cnt₀.putGCSFound ∧
      (c.runTask etagOf (TaskEnv.ok m₂) ⟨a₂, o, etagOf body, body⟩
          (c.runTask etagOf (TaskEnv.ok m₁) ⟨a₁, o, etagOf body, body⟩ store₀
            cnt₀).store
          (c.runTask etagOf (TaskEnv.ok m₁) ⟨a₁, o, etagOf body, body⟩ store₀
            cnt₀).cnt).cnt.putGCSObject = cnt₀.putGCSObject + 1 ∧
      (c.runTask etagOf (TaskEnv.ok m₂) ⟨a₂, o, etagOf body, body⟩
          (c.runTask etagOf (TaskEnv.ok m₁) ⟨a₁, o, etagOf body, body⟩ store₀
            cnt₀).store
          (c.runTask etagOf (TaskEnv.ok m₁) ⟨a₁, o, etagOf body, body⟩ store₀
            cnt₀).cnt).cnt.putGCSFound = cnt₀.putGCSFound + 1) := by
  refine ⟨runTasks_sum etagOf c pairs store cnt hok, ?_⟩
  intro a₁ a₂ o body m₁ m₂ store₀ cnt₀ hp hha hla hho hlo habs
  have hne := actionKey_ne_outputKey c a₁ o hp hha hla hho hlo
  have hpc₁ := clientPutCond_absent etagOf store₀ (c.outputKey o)
    (etagOf body) body habs
  have h1 := runTask_ok_written etagOf c a₁ o (etagOf body) body store₀ cnt₀ m₁
    (by rw [hpc₁])
  have hstore : (c.runTask etagOf (TaskEnv.ok m₁) ⟨a₁, o, etagOf body, body⟩
      store₀ cnt₀).store =
      insertA (insertA store₀ (c.outputKey o) ⟨body, etagOf body⟩)
        (c.actionKey a₁)
        ⟨strBytes (actionRecord o m₁), etagOf (strBytes (actionRecord o m₁))⟩ := by
    rw [h1, hpc₁]
  have hcnt : (c.runTask etagOf (TaskEnv.ok m₁) ⟨a₁, o, etagOf body, body⟩
      store₀ cnt₀).cnt =
      { { cnt₀ with putGCSObject := cnt₀.putGCSObject + 1 } with
          putGCSAction := cnt₀.putGCSAction + 1 } := by
    rw [h1]
  have hlook₂ : lookupA
      (insertA (insertA store₀ (c.outputKey o) ⟨body, etagOf body⟩)
        (c.actionKey a₁)
        ⟨strBytes (actionRecord o m₁), etagOf (strBytes (actionRecord o m₁))⟩)
      (c.outputKey o) = some ⟨body, etagOf body⟩ := by
    rw [lookupA_insertA, if_neg hne, lookupA_insertA, if_pos rfl]
  have hpc₂ := clientPutCond_found etagOf
    (insertA (insertA store₀ (c.outputKey o) ⟨body, etagOf body⟩)
      (c.actionKey a₁)
      ⟨strBytes (actionRecord o m₁), etagOf (strBytes (actionRecord o m₁))⟩)
    (c.outputKey o) (etagOf body) body ⟨body, etagOf body⟩ hlook₂ rfl
  have h2 := runTask_ok_found etagOf c a₂ o (etagOf body) body
    (insertA (insertA store₀ (c.outputKey o) ⟨body, etagOf body⟩)
      (c.actionKey a₁)
      ⟨strBytes (actionRecord o m₁), etagOf (strBytes (actionRecord o m₁))⟩)
    { { cnt₀ with putGCSObject := cnt₀.putGCSObject + 1 } with
        putGCSAction := cnt₀.putGCSAction + 1 }
    m₂ (by rw [hpc₂])
  refine ⟨?_, ?_, ?_, ?_⟩
  · rw [hcnt]
  · rw [hcnt]
  · rw [hstore, hcnt, h2]
  · rw [hstore, hcnt, h2]

/-- **C4 witness.** -/
theorem claim_C4_witness :
    ((GCSCache.runTasks (fun _ => "E") ⟨"", 0⟩
        [(TaskEnv.ok 1, ⟨"aabb", "ccdd", "E", [1]⟩)] [] GCSCounters.zero).2.putGCSObject +
      (GCSCache.runTasks (fun _ => "E") ⟨"", 0⟩
        [(TaskEnv.ok 1, ⟨"aabb", "ccdd", "E", [1]⟩)] [] GCSCounters.zero).2.putGCSFound =
      GCSCounters.zero.putGCSObject + GCSCounters.zero.putGCSFound + 1) ∧
    (GCSCache.runTask (fun _ => "E") ⟨"", 0⟩ (TaskEnv.ok 1)
        ⟨"aabb", "ccdd", (fun _ => "E") [7], [7]⟩ [] GCSCounters.zero).cnt.putGCSObject =
      GCSCounters.zero.putGCSObject + 1 := by
  have h := claim_C4 (fun _ => "E") ⟨"", 0⟩
    [(TaskEnv.ok 1, ⟨"aabb", "ccdd", "E", [1]⟩)] [] GCSCounters.zero
    (by intro pr hpr; simp at hpr; subst hpr; exact ⟨rfl, rfl, rfl⟩)
  refine ⟨h.1, ?_⟩
  exact (h.2 "aabb" "eeff" "ccdd" [7] 1 2 [] GCSCounters.zero
    (Or.inl rfl) (by decide) (by decide) (by decide) (by decide) rfl).1

/-- **C5.** A `Put` whose local stage write succeeds and whose size is
strictly below `MinUploadSize` returns the local disk path with nil error,
raises `put_skip_small` by exactly one, and performs or enqueues no remote
operation (the task list is empty, so the remote store is untouched). -/
theorem claim_C5 (etagOf : List Nat → String) (c : GCSCache) (env : PutEnv)
    (cnt : GCSCounters) (obj : PutObj) (dp : String)
    (hloc : env.localPut = .ok dp) (hsize : obj.size < c.minUploadSize) :
    c.put etagOf env cnt obj =
      { diskPath := dp, err := none,
        cnt := { cnt with putSkipSmall := cnt.putSkipSmall + 1 }, tasks := [] } := by
  unfold GCSCache.put
  rw [hloc]
  simp [hsize]

/-- **C1.** In every background upload task enqueued by `Put`, the remote
action-record write happens only after the conditional PUT of the output
record returned without error (the trace is then exactly the successful
conditional output put followed by the action put); on any error in the
output stage — open, stat, or conditional PUT — the task returns without
writing the action record. -/
theorem claim_C1 (etagOf : List Nat → String) (c : GCSCache) (env : TaskEnv)
    (t : PutTask) (store : Store) (cnt : GCSCounters) :
    (∀ k r, RemoteOp.putAction k r ∈ (c.runTask etagOf env t store cnt).trace →
      ∃ w, (c.runTask etagOf env t store cnt).trace =
          [RemoteOp.putCondOutput (c.outputKey t.outputID) t.etag w,
            RemoteOp.putAction k r] ∧
        (w = PCOutcome.written ∨ w = PCOutcome.found)) ∧
    ((env.openOk = false ∨ env.statRes = none ∨
        ∃ e, (clientPutCond etagOf store (c.outputKey t.outputID) t.etag t.body
          env.putCondWriteOk).2 = .error e) →
      ∀ k r, RemoteOp.putAction k r ∉ (c.runTask etagOf env t store cnt).trace) := by
  constructor
  · intro k r hmem
    cases ho : env.openOk with
    | false =>
      rw [runTask_openErr etagOf c env t store cnt ho] at hmem
      simp at hmem
    | true =>
      cases hs : env.statRes with
      | none =>
        rw [runTask_statErr etagOf c env t store cnt ho hs] at hmem
        simp at hmem
      | some m =>
        cases hc : (clientPutCond etagOf store (c.outputKey t.outputID) t.etag
            t.body env.putCondWriteOk).2 with
        | error e =>
          rw [runTask_pcErr etagOf c env t store cnt m e ho hs hc] at hmem
          simp at hmem
        | ok written =>
          cases ha : env.actionPutOk with
          | false =>
            rw [runTask_actionErr etagOf c env t store cnt m written ho hs hc ha]
              at hmem
            simp at hmem
          | true =>
            rw [runTask_okCase etagOf c env t store cnt m written ho hs hc ha]
              at hmem ⊢
            simp only [List.mem_cons, List.not_mem_nil, or_false] at hmem
            rcases hmem with h | h
            · exact absurd h (by simp)
            · obtain ⟨hk, hr⟩ : k = c.actionKey t.actionID ∧
                  r = actionRecord t.outputID m := by
                have := RemoteOp.putAction.inj h
                exact ⟨this.1, this.2⟩
              refine ⟨if written then .written else .found, ?_, ?_⟩
              · rw [hk, hr]
              · cases written
                · exact Or.inr rfl
                · exact Or.inl rfl
  · intro hdisj k r hmem
    rcases hdisj with ho | hs | ⟨e, hc⟩
    · rw [runTask_openErr etagOf c env t store cnt ho] at hmem
      simp at hmem
    · cases ho2 : env.openOk with
      | false =>
        rw [runTask_openErr etagOf c env t store cnt ho2] at hmem
        simp at hmem
      | true =>
        rw [runTask_statErr etagOf c env t store cnt ho2 hs] at hmem
        simp at hmem
    · cases ho2 : env.openOk with
      | false =>
        rw [runTask_openErr etagOf c env t store cnt ho2] at hmem
        simp at hmem
      | true =>
        cases hs2 : env.statRes with
        | none =>
          rw [runTask_statErr etagOf c env t store cnt ho2 hs2] at hmem
          simp at hmem
        | some m =>
          rw [runTask_pcErr etagOf c env t store cnt m e ho2 hs2 hc] at hmem
          simp at hmem

/-- **C1 witness.** -/
theorem claim_C1_witness :
    ∃ w, (GCSCache.runTask (fun _ => "E") ⟨"", 0⟩ (TaskEnv.ok 7)
            ⟨"aabb", "ccdd", "E", [1]⟩ [] GCSCounters.zero).trace =
        [RemoteOp.putCondOutput (GCSCache.outputKey ⟨"", 0⟩ "ccdd") "E" w,
          RemoteOp.putAction (GCSCache.actionKey ⟨"", 0⟩ "aabb")
            (actionRecord "ccdd" 7)] ∧
      (w = PCOutcome.written ∨ w = PCOutcome.found) :=
  (claim_C1 (fun _ => "E") ⟨"", 0⟩ (TaskEnv.ok 7) ⟨"aabb", "ccdd", "E", [1]⟩
      [] GCSCounters.zero).1
    (GCSCache.actionKey ⟨"", 0⟩ "aabb") (actionRecord "ccdd" 7) (by decide)

/-- **C7.** Whenever a background upload task writes an action record, the
record is exactly the single-line ASCII string: the lower-hex output id, one
space, and the signed decimal Unix-nanosecond modification time of the staged
local file (the task's `Stat` result), with no newline anywhere (hence no
trailing newline). -/
theorem claim_C7 (etagOf : List Nat → String) (c : GCSCache) (env : TaskEnv)
    (t : PutTask) (store : Store) (cnt : GCSCounters)
    (hhex : IsHexStr t.outputID) :
    ∀ k r, RemoteOp.putAction k r ∈ (c.runTask etagOf env t store cnt).trace →
      k = c.actionKey t.actionID ∧
      (∃ m, env.statRes = some m ∧ r = t.outputID ++ " " ++ goItoa m) ∧
      ∀ ch ∈ r.data, ch ≠ '\n' := by
  intro k r hmem
  cases ho : env.openOk with
  | false =>
    rw [runTask_openErr etagOf c env t store cnt ho] at hmem
    simp at hmem
  | true =>
    cases hs : env.statRes with
    | none =>
      rw [runTask_statErr etagOf c env t store cnt ho hs] at hmem
      simp at hmem
    | some m =>
      cases hc : (clientPutCond etagOf store (c.outputKey t.outputID) t.etag
          t.body env.putCondWriteOk).2 with
      | error e =>
        rw [runTask_pcErr etagOf c env t store cnt m e ho hs hc] at hmem
        simp at hmem
      | ok written =>
        cases ha : env.actionPutOk with
        | false =>
          rw [runTask_actionErr etagOf c env t store cnt m written ho hs hc ha]
            at hmem
          simp at hmem
        | true =>
          rw [runTask_okCase etagOf c env t store cnt m written ho hs hc ha]
            at hmem
          simp only [List.mem_cons, List.not_mem_nil, or_false] at hmem
          rcases hmem with h | h
          · exact absurd h (by simp)
          · obtain ⟨hk, hr⟩ : k = c.actionKey t.actionID ∧
                r = actionRecord t.outputID m := by
              have := RemoteOp.putAction.inj h
              exact ⟨this.1, this.2⟩
            refine ⟨hk, ⟨m, rfl, by rw [hr]; rfl⟩, ?_⟩
            intro ch hch
            rw [hr] at hch
            have hdata : (actionRecord t.outputID m).data =
                t.outputID.data ++ ([' '] ++ (goItoa m).data) := by
              show ((t.outputID ++ " ") ++ goItoa m).data = _
              rw [string_data_append, string_data_append, List.append_assoc]
            rw [hdata] at hch
            rcases List.mem_append.1 hch with h1 | h2
            · exact hex_ne_newline (hhex ch h1)
            · rcases List.mem_append.1 h2 with h3 | h4
              · simp only [List.mem_singleton] at h3
                subst h3
                decide
              · exact goItoa_no_newline m ch h4

/-- **C7 witness.** -/
theorem claim_C7_witness :
    GCSCache.actionKey ⟨"", 0⟩ "aabb" = GCSCache.actionKey ⟨"", 0⟩ "aabb" ∧
    (∃ m, (TaskEnv.ok 7).statRes = some m ∧
      actionRecord "ccdd" 7 = "ccdd" ++ " " ++ goItoa m) ∧
    ∀ ch ∈ (actionRecord "ccdd" 7).data, ch ≠ '\n' :=
  claim_C7 (fun _ => "E") ⟨"", 0⟩ (TaskEnv.ok 7) ⟨"aabb", "ccdd", "E", [1]⟩
    [] GCSCounters.zero (by decide)
    (GCSCache.actionKey ⟨"", 0⟩ "aabb") (actionRecord "ccdd" 7) (by decide)

/-- **C5 witness.** -/
theorem claim_C5_witness :
    GCSCache.put (fun _ => "e") ⟨"", 10⟩ ⟨Except.ok "/stage/p"⟩ GCSCounters.zero
        ⟨"aabb", "ccdd", 5, [1, 2], 0⟩ =
      { diskPath := "/stage/p", err := none,
        cnt := { GCSCounters.zero with putSkipSmall := 1 }, tasks := [] } :=
  claim_C5 (fun _ => "e") ⟨"", 10⟩ ⟨Except.ok "/stage/p"⟩ GCSCounters.zero
    ⟨"aabb", "ccdd", 5, [1, 2], 0⟩ "/stage/p" rfl (by decide)

/-- **C6.** `Get` discriminates miss from error: on a local miss with the
remote action GET returning the not-found sentinel, it returns `("", "", nil)`
and increments `get_fault_miss`; when the action GET succeeds but the
subsequent output GET fails (not-found included), it returns a non-nil error
and `get_fault_miss` is unchanged. -/
theorem claim_C6 (c : GCSCache) (env : GetEnv) (store : Store)
    (cnt : GCSCounters) (a : String)
    (hlocal : env.localRes = .ok ("", "")) (hfault : env.actionFault = false) :
    (lookupA store (c.actionKey a) = none →
      c.get env store cnt a =
        ⟨{ cnt with getFaultMiss := cnt.getFaultMiss + 1 }, "", "", none, []⟩) ∧
    (∀ rec oid m, lookupA store (c.actionKey a) = some rec →
      parseAction rec.data = some (oid, m) →
      (env.outputFault = true ∨ lookupA store (c.outputKey oid) = none) →
      (c.get env store cnt a).err = some GetErr.readObject ∧
      (c.get env store cnt a).cnt.getFaultMiss = cnt.getFaultMiss) := by
  have hget : c.get env store cnt a = c.getRemote env store cnt a := by
    unfold GCSCache.get
    rw [hlocal]
    simp
  constructor
  · intro hmiss
    have hgd : clientGetData store (c.actionKey a) env.actionFault =
        .error .notExist := by
      rw [hfault]
      simp [clientGetData, clientGet, hmiss]
    rw [hget]
    unfold GCSCache.getRemote
    rw [hgd]
  · intro rec oid m hrec hparse hout
    have hgd : clientGetData store (c.actionKey a) env.actionFault =
        .ok rec.data := by
      rw [hfault]
      simp [clientGetData, clientGet, hrec]
    obtain ⟨e, hcg⟩ : ∃ e, clientGet store (c.outputKey oid) env.outputFault =
        .error e := by
      rcases hout with hf | hl
      · exact ⟨.transport, by rw [hf]; simp [clientGet]⟩
      · cases hof : env.outputFault with
        | true => exact ⟨.transport, by simp [clientGet]⟩
        | false => exact ⟨.notExist, by simp [clientGet, hl]⟩
    have hrun : c.get env store cnt a = ⟨cnt, "", "", some .readObject, []⟩ := by
      rw [hget]
      unfold GCSCache.getRemote
      rw [hgd]
      show (match parseAction rec.data with
        | none => _
        | some (outputID, _) => _) = _
      rw [hparse]
      show (match clientGet store (c.outputKey oid) env.outputFault with
        | .error _ => _
        | .ok _ => _) = _
      rw [hcg]
    exact ⟨by rw [hrun], by rw [hrun]⟩

/-- **C6 witness.** -/
theorem claim_C6_witness :
    GCSCache.get ⟨"", 0⟩ ⟨.ok ("", ""), false, false, .ok ""⟩ []
        GCSCounters.zero "aabb" =
      ⟨{ GCSCounters.zero with getFaultMiss := 1 }, "", "", none, []⟩ ∧
    (GCSCache.get ⟨"", 0⟩ ⟨.ok ("", ""), false, false, .ok ""⟩
        [(GCSCache.actionKey ⟨"", 0⟩ "aabb", ⟨strBytes "ccdd 5", "E"⟩)]
        GCSCounters.zero "aabb").err = some GetErr.readObject ∧
    (GCSCache.get ⟨"", 0⟩ ⟨.ok ("", ""), false, false, .ok ""⟩
        [(GCSCache.actionKey ⟨"", 0⟩ "aabb", ⟨strBytes "ccdd 5", "E"⟩)]
        GCSCounters.zero "aabb").cnt.getFaultMiss =
      GCSCounters.zero.getFaultMiss := by
  refine ⟨?_, ?_⟩
  · exact (claim_C6 ⟨"", 0⟩ ⟨.ok ("", ""), false, false, .ok ""⟩ []
      GCSCounters.zero "aabb" rfl rfl).1 rfl
  · exact (claim_C6 ⟨"", 0⟩ ⟨.ok ("", ""), false, false, .ok ""⟩
      [(GCSCache.actionKey ⟨"", 0⟩ "aabb", ⟨strBytes "ccdd 5", "E"⟩)]
      GCSCounters.zero "aabb" rfl rfl).2
      ⟨strBytes "ccdd 5", "E"⟩ "ccdd" 5 (by decide) (by decide)
      (Or.inr (by decide))

/-- `GCSCache.getRemote` emits no log lines (there are no logging statements
in `GCSCache.Get`). -/
theorem getRemote_logs (c : GCSCache) (env : GetEnv) (store : Store)
    (cnt : GCSCounters) (a : String) :
    (c.getRemote env store cnt a).logs = [] := by
  unfold GCSCache.getRemote
  repeat' split
  all_goals rfl

/-- `putLocal`'s file-system effect and error result do not depend on the
incoming counter state. -/
theorem putLocalM_indep (fs : FS) (cnt cnt' : ModCounters) (path : String)
    (data : List Nat) (w : Bool) :
    (putLocalM fs cnt path data w).fs = (putLocalM fs cnt' path data w).fs ∧
    (putLocalM fs cnt path data w).err = (putLocalM fs cnt' path data w).err := by
  unfold putLocalM
  cases h : lookupA fs path with
  | some _ => exact ⟨rfl, rfl⟩
  | none => cases w <;> simp

/-- `putLocal` never touches the `get_local_error` counter. -/
theorem putLocalM_getLocalError (fs : FS) (cnt : ModCounters) (path : String)
    (data : List Nat) (w : Bool) :
    (putLocalM fs cnt path data w).cnt.getLocalError = cnt.getLocalError := by
  unfold putLocalM
  cases h : lookupA fs path with
  | some _ => rfl
  | none => cases w <;> simp

/-- The fault-in tail of the module `Get`: its result and final local file
system do not depend on the counter or log state it starts from; it never
touches `get_local_error`; and it only appends to the log lines it is
given. -/
theorem modGetRemote_spec (c : StorageCacher) (env : ModGetEnv) (store : Store)
    (fs : FS) (cnt cnt' : ModCounters) (name path hash : String)
    (logs logs' logE logE' : List ModLog) :
    ((c.modGetRemote env store fs cnt name path hash logs logE).result =
      (c.modGetRemote env store fs cnt' name path hash logs' logE').result ∧
    (c.modGetRemote env store fs cnt name path hash logs logE).fs =
      (c.modGetRemote env store fs cnt' name path hash logs' logE').fs) ∧
    (c.modGetRemote env store fs cnt name path hash logs logE).cnt.getLocalError =
      cnt.getLocalError ∧
    ∃ suffix, (c.modGetRemote env store fs cnt name path hash logs logE).logs =
      logs ++ suffix := by
  simp only [StorageCacher.modGetRemote]
  cases hsema : env.semaOk with
  | false =>
    exact ⟨⟨rfl, rfl⟩, rfl, logE, rfl⟩
  | true =>
    cases hcg : clientGet store (c.makeKey hash) env.remoteFault with
    | error e =>
      cases e
      · exact ⟨⟨rfl, rfl⟩, rfl, logE, rfl⟩
      · exact ⟨⟨rfl, rfl⟩, rfl, logE, rfl⟩
    | ok pr =>
      obtain ⟨data, sz⟩ := pr
      simp only [not_true, if_false]
      have hind := putLocalM_indep fs
        { cnt with getFaultHit := cnt.getFaultHit + 1 }
        { cnt' with getFaultHit := cnt'.getFaultHit + 1 } path data env.writeOk
      have hloc := putLocalM_getLocalError fs
        { cnt with getFaultHit := cnt.getFaultHit + 1 } path data env.writeOk
      cases hpe : (putLocalM fs { cnt with getFaultHit := cnt.getFaultHit + 1 }
          path data env.writeOk).err with
      | some u =>
        have hpe' : (putLocalM fs
            { cnt' with getFaultHit := cnt'.getFaultHit + 1 }
            path data env.writeOk).err = some u := by
          rw [← hind.2, hpe]
        rw [hpe']
        exact ⟨⟨rfl, hind.1⟩, by rw [hloc], _, List.append_assoc _ _ _⟩
      | none =>
        have hpe' : (putLocalM fs
            { cnt' with getFaultHit := cnt'.getFaultHit + 1 }
            path data env.writeOk).err = none := by
          rw [← hind.2, hpe]
        rw [hpe']
        cases env.reopen with
        | ok d => exact ⟨⟨rfl, hind.1⟩, by rw [hloc], _, List.append_assoc _ _ _⟩
        | error u => exact ⟨⟨rfl, hind.1⟩, by rw [hloc], _, List.append_assoc _ _ _⟩

/-- **C8 counterexample.** For the build adapter, a local stage read error is
treated as a miss and the request proceeds to the remote fault-in (here a
remote miss), but nothing is logged — the log output of the call is empty —
and no local-error counter is incremented (`GCSCache` has no such counter;
the only counter that moves here is `get_fault_miss`). -/
theorem claim_C8_counterexample :
    (GCSCache.get ⟨"", 0⟩ ⟨.error (), false, false, .ok ""⟩ []
        GCSCounters.zero "aabb").logs = [] ∧
    (GCSCache.get ⟨"", 0⟩ ⟨.error (), false, false, .ok ""⟩ []
        GCSCounters.zero "aabb").cnt =
      { GCSCounters.zero with getFaultMiss := 1 } := by
  decide

/-- **C8 (amended).** Whenever a local stage read fails with an error other
than not-found, both adapters treat it as a miss and proceed to the remote
fault-in rather than failing the request; the module adapter logs the error
and counts it in `get_local_error`, while the build adapter does so silently
(it logs nothing and has no local-error counter). -/
theorem claim_C8 :
    (∀ (c : GCSCache) (env : GetEnv) (store : Store) (cnt : GCSCounters)
        (a : String) (u : Unit), env.localRes = .error u →
      c.get env store cnt a =
        c.get { env with localRes := .ok ("", "") } store cnt a ∧
      (c.get env store cnt a).logs = []) ∧
    (∀ (c : StorageCacher) (env : ModGetEnv) (store : Store) (fs : FS)
        (cnt : ModCounters) (name : String) (digest : List Nat),
      env.localRead = .ioErr → env.mkdirOk = true →
      (c.modGet env store fs cnt name digest).cnt.getLocalError =
        cnt.getLocalError + 1 ∧
      ModLog.localTreatMiss name ∈ (c.modGet env store fs cnt name digest).logs ∧
      (c.modGet env store fs cnt name digest).result =
        (c.modGet { env with localRead := .notExist } store fs cnt name
          digest).result ∧
      (c.modGet env store fs cnt name digest).fs =
        (c.modGet { env with localRead := .notExist } store fs cnt name
          digest).fs) := by
  constructor
  · intro c env store cnt a u h
    have hmain : c.get env store cnt a = c.getRemote env store cnt a := by
      unfold GCSCache.get
      rw [h]
    constructor
    · rw [hmain]
      show c.getRemote env store cnt a =
        c.getRemote { env with localRes := .ok ("", "") } store cnt a
      rfl
    · rw [hmain]
      exact getRemote_logs c env store cnt a
  · intro c env store fs cnt name digest hlr hmk
    have he : c.modGet env store fs cnt name digest =
        c.modGetRemote env store fs
          { { cnt with getRequest := cnt.getRequest + 1 } with
              getLocalError := cnt.getLocalError + 1 }
          name
          (goPathJoin [c.localDir, goTake2 (hashName digest), hashName digest])
          (hashName digest)
          ((if c.logRequests then [ModLog.beginGet name] else []) ++
            [ModLog.localTreatMiss name])
          (if c.logRequests then [ModLog.endGet name] else []) := by
      unfold StorageCacher.modGet
      rw [hlr]
      simp [hmk]
    have hm : c.modGet { env with localRead := .notExist } store fs cnt name
        digest =
        c.modGetRemote env store fs
          { { cnt with getRequest := cnt.getRequest + 1 } with
              getLocalMiss := cnt.getLocalMiss + 1 }
          name
          (goPathJoin [c.localDir, goTake2 (hashName digest), hashName digest])
          (hashName digest)
          (if c.logRequests then [ModLog.beginGet name] else [])
          (if c.logRequests then [ModLog.endGet name] else []) := by
      unfold StorageCacher.modGet
      simp [hmk]
      rfl
    obtain ⟨hind, hloc, suffix, hlogs⟩ := modGetRemote_spec c env store fs
      { { cnt with getRequest := cnt.getRequest + 1 } with
          getLocalError := cnt.getLocalError + 1 }
      { { cnt with getRequest := cnt.getRequest + 1 } with
          getLocalMiss := cnt.getLocalMiss + 1 }
      name
      (goPathJoin [c.localDir, goTake2 (hashName digest), hashName digest])
      (hashName digest)
      ((if c.logRequests then [ModLog.beginGet name] else []) ++
        [ModLog.localTreatMiss name])
      (if c.logRequests then [ModLog.beginGet name] else [])
      (if c.logRequests then [ModLog.endGet name] else [])
      (if c.logRequests then [ModLog.endGet name] else [])
    refine ⟨?_, ?_, ?_, ?_⟩
    · rw [he, hloc]
    · rw [he, hlogs]
      apply List.mem_append_left
      apply List.mem_append_right
      simp
    · rw [he, hm]
      exact hind.1
    · rw [he, hm]
      exact hind.2

/-- **C8 witness.** -/
theorem claim_C8_witness :
    (GCSCache.get ⟨"", 0⟩ ⟨.error (), false, false, .ok ""⟩ []
        GCSCounters.zero "aabb" =
      GCSCache.get ⟨"", 0⟩ ⟨.ok ("", ""), false, false, .ok ""⟩ []
        GCSCounters.zero "aabb") ∧
    (StorageCacher.modGet ⟨"/L", "", true⟩
        ⟨true, .ioErr, true, false, true, .ok [9]⟩ [] [] ModCounters.zero
        "nm" [3]).cnt.getLocalError = ModCounters.zero.getLocalError + 1 := by
  constructor
  · exact ((claim_C8.1 ⟨"", 0⟩ ⟨.error (), false, false, .ok ""⟩ []
      GCSCounters.zero "aabb" () rfl).1).trans (by rfl)
  · exact (claim_C8.2 ⟨"/L", "", true⟩ ⟨true, .ioErr, true, false, true, .ok [9]⟩
      [] [] ModCounters.zero "nm" [3] rfl rfl).1

/-- **C9.** A module-adapter `Put` for a name whose local file already exists
leaves the local file system untouched (the record is not mutated),
increments `put_local_hit`, returns nil, and enqueues no remote write-back,
so the remote store is untouched by that call. -/
theorem claim_C9 (c : StorageCacher) (env : ModPutEnv) (fs : FS)
    (cnt : ModCounters) (name : String) (digest : List Nat)
    (data bytes₀ : List Nat)
    (hmk : env.mkdirOk = true)
    (hexist : lookupA fs
      (goPathJoin [c.localDir, goTake2 (hashName digest), hashName digest]) =
      some bytes₀) :
    c.modPut env fs cnt name digest data =
      { cnt := { { cnt with putRequest := cnt.putRequest + 1 } with
            putLocalHit := cnt.putLocalHit + 1 },
        fs := fs, err := none, tasks := [],
        logs := (if c.logRequests then [ModLog.beginPut name] else []) ++
          (if c.logRequests then [ModLog.endPut name] else []) } := by
  unfold StorageCacher.modPut putLocalM
  simp [hmk, hexist]

/-- **C9 witness.** -/
theorem claim_C9_witness :
    StorageCacher.modPut ⟨"/L", "", false⟩ ⟨true, true, true⟩
        [(goPathJoin ["/L", goTake2 (hashName (List.replicate 32 0)),
          hashName (List.replicate 32 0)], [9])]
        ModCounters.zero "nm" (List.replicate 32 0) [1, 2] =
      { cnt := { ModCounters.zero with putRequest := 1, putLocalHit := 1 },
        fs := [(goPathJoin ["/L", goTake2 (hashName (List.replicate 32 0)),
          hashName (List.replicate 32 0)], [9])],
        err := none, tasks := [], logs := [] } := by
  have h := claim_C9 ⟨"/L", "", false⟩ ⟨true, true, true⟩
    [(goPathJoin ["/L", goTake2 (hashName (List.replicate 32 0)),
      hashName (List.replicate 32 0)], [9])]
    ModCounters.zero "nm" (List.replicate 32 0) [1, 2] [9] rfl (by decide)
  exact h.trans (by decide)


end GoCachePlugin
